import Mathlib

/-!
Shallow embedding of the core of the gedcom-go library: the line parser
(`parser/parser.go`), the line tokenizer (`ScanGEDCOMLines`), the decoder
validation passes (`decoder/structure_validation.go`,
`decoder/xref_validation.go`) and the validator rules
(`validator/version_rules.go`, `validator/v55_rules.go`,
`validator/v70_rules.go`, `validator/circular_validation.go`).

Strings are embedded as `List Char`.  Go `fmt` quoting (`%q`) inside error
message strings is modelled as plain double quoting; no theorem below
inspects message text.
-/

namespace Gedcom

/-- Strings of the Go source are embedded as lists of characters. -/
abbrev Str := List Char

/-- Go `unicode.IsSpace` restricted to the Latin-1 range (the only
characters the claims exercise): tab, LF, vertical tab, form feed, CR,
space, NEL and NBSP. -/
def isSpace (c : Char) : Bool :=
  c = ' ' || c = '\t' || c = '\n' || c = Char.ofNat 11 || c = Char.ofNat 12 ||
  c = '\r' || c = Char.ofNat 133 || c = Char.ofNat 160

/-- `strings.TrimRight(input, "\r\n")`. -/
def trimRightNewlines (s : Str) : Str :=
  (s.reverse.dropWhile (fun c => c = '\r' || c = '\n')).reverse

/-- `strings.TrimSpace`. -/
def trimSpace (s : Str) : Str :=
  ((s.dropWhile isSpace).reverse.dropWhile isSpace).reverse

/-- Helper for `fields`: accumulates the current field in reverse. -/
def fieldsAux : Str → Str → List Str
  | [], acc => if acc = [] then [] else [acc.reverse]
  | c :: rest, acc =>
    if isSpace c then
      if acc = [] then fieldsAux rest [] else acc.reverse :: fieldsAux rest []
    else
      fieldsAux rest (c :: acc)

/-- `strings.Fields`: split around runs of whitespace. -/
def fields (s : Str) : List Str := fieldsAux s []

/-- Decimal digit accumulation for `atoi`; fails on a non-digit. -/
def digitsVal : Str → Nat → Option Nat
  | [], acc => some acc
  | c :: rest, acc =>
    if '0' ≤ c ∧ c ≤ '9' then
      digitsVal rest (acc * 10 + (c.toNat - '0'.toNat))
    else
      none

/-- Digits part of `strconv.Atoi`: nonempty digit run within the signed
64-bit range (`bound` is the magnitude bound for the sign in question). -/
def atoiDigits (s : Str) (bound : Nat) : Option Nat :=
  if s = [] then none
  else
    match digitsVal s 0 with
    | none => none
    | some n => if n ≤ bound then some n else none

/-- `strconv.Atoi` on a 64-bit platform: optional sign, digits, range
checked; any other shape is an error (`none`). -/
def atoi (s : Str) : Option Int :=
  match s with
  | [] => none
  | c :: rest =>
    if c = '+' then (atoiDigits rest (2 ^ 63 - 1)).map (fun n => (n : Int))
    else if c = '-' then (atoiDigits rest (2 ^ 63)).map (fun n => -(n : Int))
    else (atoiDigits (c :: rest) (2 ^ 63 - 1)).map (fun n => (n : Int))

/-- `parser.Line`: one parsed GEDCOM line. -/
structure Line where
  level : Int
  tag : Str
  value : Str
  xref : Str
  lineNumber : Nat
deriving DecidableEq

/-- The typed parser errors of `parser` (InvalidTagError, InvalidLevelError,
LevelMismatchError, InvalidXRefError). -/
inductive InnerErr where
  | invalidTag (tag : Str) (reason : String)
  | invalidLevel (raw : Str) (reason : String)
  | levelMismatch (previous current : Int)
  | invalidXRef (xref : Str) (reason : String)
deriving DecidableEq

/-- `String.mk` wrapper used when a Go error message embeds a `%s`/`%q`
formatted substring. -/
def strOf (s : Str) : String := String.mk s

/-- `Error()` of the typed parser errors (`%q` modelled as plain quotes). -/
def innerMessage : InnerErr → String
  | .invalidTag t r => "invalid tag \"" ++ strOf t ++ "\": " ++ r
  | .invalidLevel raw r => "invalid level \"" ++ strOf raw ++ "\": " ++ r
  | .levelMismatch p c => "level jump from " ++ toString p ++ " to " ++ toString c
  | .invalidXRef x r => "invalid xref \"" ++ strOf x ++ "\": " ++ r

/-- `parser.ParseError`: line number, message, raw context and the wrapped
typed error (`nil` modelled as `none`). -/
structure ParseError where
  line : Nat
  message : String
  context : Str
  err : Option InnerErr
deriving DecidableEq

/-- `parser.Parser` state. -/
structure Parser where
  lineNumber : Nat
  lastLevel : Int
  maxDepth : Int
deriving DecidableEq

/-- `parser.MaxNestingDepth`. -/
def MaxNestingDepth : Int := 100

/-- `parser.maxTagLength`. -/
def maxTagLength : Nat := 31

/-- `parser.NewParser`. -/
def NewParser : Parser := { lineNumber := 0, lastLevel := -1, maxDepth := MaxNestingDepth }

/-- `Parser.Reset`. -/
def Reset (p : Parser) : Parser := { p with lineNumber := 0, lastLevel := -1 }

/-- `Parser.SetMaxNestingDepth`. -/
def SetMaxNestingDepth (p : Parser) (max : Int) : Parser :=
  if max ≤ 0 then { p with maxDepth := MaxNestingDepth }
  else { p with maxDepth := max }

/-- Character class accepted inside a tag by `validateTag`. -/
def validTagChar (c : Char) : Bool :=
  ('a' ≤ c ∧ c ≤ 'z') || ('A' ≤ c ∧ c ≤ 'Z') || ('0' ≤ c ∧ c ≤ '9') || c = '_'

/-- `parser.validateTag`. -/
def validateTag (tag : Str) : Option InnerErr :=
  if tag = [] then some (.invalidTag tag "empty")
  else if tag.length > maxTagLength then some (.invalidTag tag "too long")
  else if tag.all validTagChar then none
  else some (.invalidTag tag "contains invalid characters")

/-- `parser.validateXRef`: length and `@`-count shape check. -/
def validateXRef (xref : Str) : Option InnerErr :=
  if xref.length ≤ 2 then some (.invalidXRef xref "empty")
  else if xref.count '@' ≠ 2 then some (.invalidXRef xref "must start and end with @")
  else none

/-- `strings.HasPrefix(x, "@") && strings.HasSuffix(x, "@")`. -/
def isXRefField (x : Str) : Bool :=
  x.head? = some '@' && x.getLast? = some '@'

/-- `parser.fieldStartIndex` inner loop (`i` is the running index). -/
def fieldStartIndexAux : Str → Nat → Bool → Nat → Nat → Option Nat
  | [], _, _, _, _ => none
  | c :: rest, i, inField, field, fieldIndex =>
    if isSpace c then fieldStartIndexAux rest (i + 1) false field fieldIndex
    else if !inField then
      if field = fieldIndex then some i
      else fieldStartIndexAux rest (i + 1) true (field + 1) fieldIndex
    else fieldStartIndexAux rest (i + 1) true field fieldIndex

/-- `parser.fieldStartIndex` (the Go function returns `-1` when absent,
modelled as `none`; callers only pass nonnegative indices). -/
def fieldStartIndex (line : Str) (fieldIndex : Nat) : Option Nat :=
  fieldStartIndexAux line 0 false 0 fieldIndex

/-- Value suffix computation of `ParseLine` (lines 166-173 of parser.go). -/
def valueFrom (line : Str) (partsLen valueStartIdx : Nat) : Str :=
  if valueStartIdx < partsLen then
    match fieldStartIndex line valueStartIdx with
    | some pos => if pos < line.length then line.drop pos else []
    | none => []
  else []

/-- `parser.newParseError` / `parser.wrapParseError`: build a `ParseError`
(`wrap` carries the typed inner error, `new` carries none). -/
def mkParseError (line : Nat) (message : String) (context : Str) (err : Option InnerErr) : ParseError :=
  { line := line, message := message, context := context, err := err }

/-- `Line` constructor in positional form. -/
def mkLine (level : Int) (tag value xref : Str) (lineNumber : Nat) : Line :=
  { level := level, tag := tag, value := value, xref := xref, lineNumber := lineNumber }

/-- `Parser.ParseLine`: parse one GEDCOM line, returning the updated parser
state and either the parsed `Line` or a `ParseError`, mirroring the Go
control flow branch by branch. -/
def ParseLine (p : Parser) (input : Str) : Parser × Except ParseError Line :=
  let n := p.lineNumber + 1
  let p := { p with lineNumber := n }
  let line := trimRightNewlines input
  if line.all isSpace then
    (p, .error (mkParseError n "empty line" input none))
  else
    match fields line with
    | [] =>
      (p, .error (mkParseError n "line must have at least level and tag (expected a tag like HEAD, INDI, FAM, or SOUR)" line none))
    | [_] =>
      (p, .error (mkParseError n "line must have at least level and tag (expected a tag like HEAD, INDI, FAM, or SOUR)" line none))
    | part0 :: part1 :: rest =>
      match atoi part0 with
      | none =>
        (p, .error (mkParseError n "invalid level number" line (some (.invalidLevel part0 "not a number"))))
      | some level =>
        if level < 0 then
          (p, .error (mkParseError n "level cannot be negative" line (some (.invalidLevel part0 "negative"))))
        else
          let limit := if p.maxDepth ≤ 0 then MaxNestingDepth else p.maxDepth
          if level > limit then
            (p, .error (mkParseError n "maximum nesting depth exceeded" line (some (.invalidLevel part0 "exceeds max depth"))))
          else if p.lastLevel ≥ 0 ∧ level > p.lastLevel + 1 then
            (p, .error (mkParseError n "level jump exceeds one" line (some (.levelMismatch p.lastLevel level))))
          else
            let step2 : Str → Str → Nat → Parser × Except ParseError Line :=
              fun xref tag valueStartIdx =>
                match validateTag tag with
                | some e =>
                  (p, .error (mkParseError n (innerMessage e ++ " (expected A-Z, 0-9, underscore, max length 31)") line (some e)))
                | none =>
                  let value := valueFrom line (rest.length + 2) valueStartIdx
                  ({ p with lastLevel := level },
                   .ok { level := level, tag := tag, value := value, xref := xref, lineNumber := n })
            if isXRefField part1 then
              match validateXRef part1 with
              | some e =>
                (p, .error (mkParseError n (innerMessage e) line (some e)))
              | none =>
                match rest with
                | [] =>
                  (p, .error (mkParseError n "line with xref must have a tag (expected a tag like INDI, FAM, or SOUR)" line none))
                | tag :: _ => step2 part1 tag 3
            else
              step2 [] part1 2

/-- `parser.enrichParseError` (the argument is always a `*ParseError` at the
call sites modelled here). -/
def enrichParseError (e : ParseError) (prevLine currentLine : Str) : ParseError :=
  let context :=
    if prevLine = [] then currentLine
    else "prev: ".toList ++ prevLine ++ " | line: ".toList ++ currentLine
  { e with context := context }

/-- `parser.ScanGEDCOMLines` scan loop; `acc` holds the scanned prefix in
reverse. -/
def scanAux (acc rest : Str) (atEOF : Bool) : Nat × Option Str :=
  match rest with
  | [] => if atEOF then (acc.length, some acc.reverse) else (0, none)
  | c :: rest1 =>
    if c = '\n' then (acc.length + 1, some acc.reverse)
    else if c = '\r' then
      match rest1 with
      | [] => if atEOF then (acc.length + 1, some acc.reverse) else (0, none)
      | c1 :: _ =>
        if c1 = '\n' then (acc.length + 2, some acc.reverse)
        else (acc.length + 1, some acc.reverse)
    else scanAux (c :: acc) rest1 atEOF

/-- `parser.ScanGEDCOMLines`: split function handling LF, CRLF and CR line
endings; returns `(advance, token)` with `none` for a nil token. -/
def ScanGEDCOMLines (data : Str) (atEOF : Bool) : Nat × Option Str :=
  if atEOF ∧ data = [] then (0, none)
  else scanAux [] data atEOF

/-- `bufio.Scanner` driving loop over `ScanGEDCOMLines` when the whole
input is available: a `(0, none)` answer makes the reader hit EOF and retry
the split function with `atEOF = true`.  Fuel is the input length (each
emitted token advances at least one character). -/
def gedcomTokensAux : Nat → Str → List Str
  | 0, _ => []
  | fuel + 1, data =>
    if data = [] then []
    else
      match ScanGEDCOMLines data false with
      | (adv, some tok) => tok :: gedcomTokensAux fuel (data.drop adv)
      | (_, none) =>
        match ScanGEDCOMLines data true with
        | (adv, some tok) => tok :: gedcomTokensAux fuel (data.drop adv)
        | (_, none) => []

/-- The logical lines produced by scanning `data` with `ScanGEDCOMLines`. -/
def gedcomTokens (data : Str) : List Str := gedcomTokensAux data.length data

/-- The per-token loop shared by `Parse` and `ParseWithRecovery`:
`prev` is the last successfully parsed raw line. -/
def recoverLoop (p : Parser) (prev : Str) : List Str → List Line × List ParseError
  | [] => ([], [])
  | t :: ts =>
    match ParseLine p t with
    | (p1, .error e) =>
      let r := recoverLoop p1 prev ts
      (r.1, enrichParseError e prev t :: r.2)
    | (p1, .ok l) =>
      let r := recoverLoop p1 t ts
      (l :: r.1, r.2)

/-- `Parser.ParseWithRecovery` on an in-memory input: reset state, tokenize,
parse every token, collecting parsed lines and enriched errors. -/
def ParseWithRecovery (p : Parser) (input : Str) : List Line × List ParseError :=
  recoverLoop (Reset p) [] (gedcomTokens input)

/-- Decimal digits of a natural number (fuel-bounded `strconv.Itoa` core). -/
def natToStrAux : Nat → Nat → Str
  | 0, _ => []
  | fuel + 1, m =>
    if m < 10 then [Char.ofNat ('0'.toNat + m)]
    else natToStrAux fuel (m / 10) ++ [Char.ofNat ('0'.toNat + m % 10)]

/-- `strconv.Itoa` on a natural number. -/
def natToStr (m : Nat) : Str := natToStrAux (m + 1) m

/-- `strconv.Itoa` on an integer. -/
def intToStr (i : Int) : Str :=
  if i < 0 then '-' :: natToStr (-i).toNat else natToStr i.toNat

/-- Decoder-layer errors of `decoder/errors.go` needed by the claims. -/
inductive DecodeErr where
  | missingHeader (line : Nat) (context : Str)
  | missingTrailer (line : Nat) (context : Str)
  | brokenXRef (xref : Str) (line : Nat) (tag : Str) (recordXRef : Str) (context : Str)
deriving DecidableEq

/-- `decoder.formatLineContext`. -/
def formatLineContext (l : Line) : Str :=
  intToStr l.level ++ " ".toList ++
  (if l.xref ≠ [] then l.xref ++ " ".toList else []) ++
  l.tag ++
  (if l.value ≠ [] then " ".toList ++ l.value else [])

/-- `decoder.validateStructure`: presence check for a level-0 HEAD line and
a level-0 TRLR line over the parsed line list. -/
def validateStructure (lines : List Line) : List DecodeErr :=
  match lines with
  | [] => [.missingHeader 0 []]
  | first :: _ =>
    let hasHead := lines.any (fun l => l.level = 0 && l.tag = "HEAD".toList)
    let hasTrlr := lines.any (fun l => l.level = 0 && l.tag = "TRLR".toList)
    (if hasHead then [] else [.missingHeader first.lineNumber (formatLineContext first)]) ++
    (if hasTrlr then []
     else
       let last := lines.getLastD first
       [.missingTrailer last.lineNumber (formatLineContext last)])

/-- `gedcom.Version`.  Modelled from the spec: the `gedcom` package is not
under src/; the spec gives versions {5.5, 5.5.1, 7.0, unknown}. -/
inductive Version where
  | v55
  | v551
  | v70
  | unknown
deriving DecidableEq

/-- Display string of a `gedcom.Version`.  Modelled from the spec. -/
def versionStr : Version → String
  | .v55 => "5.5"
  | .v551 => "5.5.1"
  | .v70 => "7.0"
  | .unknown => "unknown"

/-- `gedcom.Header`.  Modelled from the spec: header metadata carrying the
detected version. -/
structure Header where
  version : Version
deriving DecidableEq

/-- `gedcom.Tag`.  Modelled from the spec: a non-root node of a record
subtree (`record.Tags` is the ordered sequence of subtree Tag nodes). -/
structure GTag where
  level : Int
  tag : Str
  value : Str
  xref : Str
  lineNumber : Nat
deriving DecidableEq

/-- `gedcom.Record`.  Modelled from the spec: a level-0 node with its xref,
record type tag, subtree tags and line number. -/
structure Record where
  xref : Str
  type : Str
  tags : List GTag
  lineNumber : Nat
deriving DecidableEq

/-- `gedcom.Individual` projection.  Modelled from the spec: xref plus the
`FAMC` family-link references (`child_in_families`). -/
structure Individual where
  xref : Str
  famc : List Str
deriving DecidableEq

/-- `gedcom.Family` projection.  Modelled from the spec: xref, husband and
wife xrefs (empty when absent). -/
structure Family where
  xref : Str
  husband : Str
  wife : Str
deriving DecidableEq

/-- `gedcom.Document`.  Modelled from the spec: header, ordered records,
the domain of the xref index (`XRefMap` keys; only key membership is read
by the embedded checks) and the individual/family projections. -/
structure Document where
  header : Option Header
  records : List Record
  xrefKeys : List Str
  individuals : List Individual
  families : List Family
deriving DecidableEq

/-- `decoder.isXRefValue`. -/
def isXRefValue (value : Str) : Bool :=
  if !(value.head? = some '@' && value.getLast? = some '@') then false
  else if value.length < 3 then false
  else if value = "@VOID@".toList then false
  else true

/-- `decoder.validateXRefs`: scan every tag of every record and report a
`BrokenXRef` for each xref-shaped value missing from the index. -/
def validateXRefs (doc : Document) : List DecodeErr :=
  doc.records.flatMap (fun record =>
    record.tags.filterMap (fun tag =>
      if !isXRefValue tag.value then none
      else if doc.xrefKeys.contains tag.value then none
      else some (.brokenXRef tag.value tag.lineNumber tag.tag record.xref
        (trimSpace (tag.tag ++ " ".toList ++ tag.value)))))

/-- `validator.ValidationError`. -/
structure ValidationError where
  code : String
  message : String
  line : Nat
  xref : Str
deriving DecidableEq

/-- Lookup in a deprecated-tag table (Go map lookup, modelled over an
association list). -/
def depLookup (m : List (Str × String)) (k : Str) : Option String :=
  (m.find? (fun q => q.1 = k)).map (fun q => q.2)

/-- `validator.validateDeprecatedTags`: flag the record type and every
subtree tag found in the deprecated table. -/
def validateDeprecatedTags (doc : Document) (version : Version) (dep : List (Str × String)) :
    List ValidationError :=
  doc.records.flatMap (fun record =>
    (match depLookup dep record.type with
     | some reason =>
       [{ code := "DEPRECATED_TAG",
          message := "Tag " ++ strOf record.type ++ " is not valid in GEDCOM " ++
            versionStr version ++ ": " ++ reason,
          line := record.lineNumber, xref := record.xref }]
     | none => []) ++
    record.tags.filterMap (fun tag =>
      (depLookup dep tag.tag).map (fun reason =>
        { code := "DEPRECATED_TAG",
          message := "Tag " ++ strOf tag.tag ++ " is not valid in GEDCOM " ++
            versionStr version ++ ": " ++ reason,
          line := tag.lineNumber, xref := record.xref })))

/-- `validator.validateV55Rules` deprecated-tag table. -/
def dep55 : List (Str × String) :=
  [("UID".toList, "introduced in GEDCOM 7.0"),
   ("CREA".toList, "introduced in GEDCOM 7.0"),
   ("MIME".toList, "introduced in GEDCOM 7.0")]

/-- `validator.validateV70Rules` deprecated-tag table. -/
def dep70 : List (Str × String) :=
  [("AFN".toList, "deprecated in GEDCOM 7.0"),
   ("EMAIL".toList, "deprecated in GEDCOM 7.0"),
   ("FAX".toList, "deprecated in GEDCOM 7.0"),
   ("RFN".toList, "deprecated in GEDCOM 7.0"),
   ("REFN".toList, "deprecated in GEDCOM 7.0"),
   ("RIN".toList, "deprecated in GEDCOM 7.0"),
   ("WWW".toList, "deprecated in GEDCOM 7.0")]

/-- `validator.validateV55Rules`. -/
def validateV55Rules (doc : Document) : List ValidationError :=
  validateDeprecatedTags doc .v55 dep55

/-- `validator.validateV551Rules`.  Modelled from the spec: the file
`validator/v551_rules.go` is not under src/; the spec flags the same set
{UID, CREA, MIME} for 5.5.1 as for 5.5. -/
def validateV551Rules (doc : Document) : List ValidationError :=
  validateDeprecatedTags doc .v551 dep55

/-- `validator.validateV70Rules`. -/
def validateV70Rules (doc : Document) : List ValidationError :=
  validateDeprecatedTags doc .v70 dep70

/-- `validator.validateVersionSpecific`: dispatch on the header version;
no header or an unrecognized version skips the checks. -/
def validateVersionSpecific (doc : Document) : List ValidationError :=
  match doc.header with
  | none => []
  | some h =>
    match h.version with
    | .v55 => validateV55Rules doc
    | .v551 => validateV551Rules doc
    | .v70 => validateV70Rules doc
    | .unknown => []

/-- `Document.GetIndividual`.  Modelled from the spec: xref-index lookup of
an individual (first projection with the given xref). -/
def getIndividual (doc : Document) (x : Str) : Option Individual :=
  doc.individuals.find? (fun i => i.xref = x)

/-- `Document.GetFamily`.  Modelled from the spec: xref-index lookup of a
family. -/
def getFamily (doc : Document) (x : Str) : Option Family :=
  doc.families.find? (fun f => f.xref = x)

/-- Turn an optional lookup result into a list. -/
def optList : Option Individual → List Individual
  | none => []
  | some i => [i]

/-- `Individual.Parents`.  Modelled from the spec: FAMC → HUSB + WIFE
resolution through the document's family and individual indices. -/
def parents (doc : Document) (ind : Individual) : List Individual :=
  ind.famc.flatMap (fun fx =>
    match getFamily doc fx with
    | none => []
    | some f => optList (getIndividual doc f.husband) ++ optList (getIndividual doc f.wife))

mutual

/-- `validator.hasCircularAncestry` recursion, with explicit fuel and the
`visiting`/`visited` maps threaded as lists of xrefs (Go maps are shared
by reference, so state from completed recursive calls persists in the
caller; a `true` result short-circuits every caller, so only the
`false`-result state is threaded).  `none` means the fuel ran out; the
top-level wrapper supplies provably sufficient fuel. -/
def hasCircAux (doc : Document) :
    Nat → Individual → Str → List Str → List Str → Option (Bool × List Str × List Str)
  | 0, _, _, _, _ => none
  | fuel + 1, current, target, visiting, visited =>
    if current.xref = [] then some (false, visiting, visited)
    else if visiting.contains current.xref then
      some (decide (current.xref = target), visiting, visited)
    else if visited.contains current.xref then some (false, visiting, visited)
    else
      match hasCircList doc fuel (parents doc current) target (current.xref :: visiting) visited with
      | none => none
      | some (true, a, b) => some (true, a, b)
      | some (false, a, b) => some (false, a.erase current.xref, current.xref :: b)

/-- The `for _, parent := range current.Parents(doc)` loop of
`hasCircularAncestry`. -/
def hasCircList (doc : Document) :
    Nat → List Individual → Str → List Str → List Str → Option (Bool × List Str × List Str)
  | _, [], _, visiting, visited => some (false, visiting, visited)
  | fuel, par :: rest, target, visiting, visited =>
    if par.xref = target then some (true, visiting, visited)
    else
      match hasCircAux doc fuel par target visiting visited with
      | none => none
      | some (true, a, b) => some (true, a, b)
      | some (false, a, b) => hasCircList doc fuel rest target a b

end

/-- Fuel used by the top-level circular-ancestry check: enough for the
visiting set, which only ever holds distinct xrefs of `doc.individuals`. -/
def circFuel (doc : Document) : Nat := doc.individuals.length + 2

/-- `validator.hasCircularAncestry` entry point: empty maps, target is the
individual's own xref.  The fuel-out case is unreachable (proved below) and
mapped to `false`. -/
def hasCircularAncestry (doc : Document) (ind : Individual) : Bool :=
  match hasCircAux doc (circFuel doc) ind ind.xref [] [] with
  | some (b, _, _) => b
  | none => false

/-- `validator.validateCircularRelationships`: one DFS per individual; an
individual with an empty xref is skipped. -/
def validateCircularRelationships (doc : Document) : List ValidationError :=
  doc.individuals.filterMap (fun ind =>
    if ind.xref = [] then none
    else if hasCircularAncestry doc ind then
      some { code := "CIRCULAR_REFERENCE",
             message := "Circular family relationship detected for " ++ strOf ind.xref,
             line := 0, xref := ind.xref }
    else none)

/-- Observable key of a validation issue: code, line, xref. -/
def issueKey (e : ValidationError) : String × Nat × Str := (e.code, e.line, e.xref)

/-- Issues demanded by the spec's deprecation rule for a tag set `S`:
one `DEPRECATED_TAG` per record whose type is in `S` and per subtree tag
in `S`, carrying that occurrence's line and the record xref. -/
def depIssueKeysSpec (doc : Document) (S : Str → Bool) : List (String × Nat × Str) :=
  doc.records.flatMap (fun r =>
    (if S r.type then [("DEPRECATED_TAG", r.lineNumber, r.xref)] else []) ++
    r.tags.filterMap (fun t =>
      if S t.tag then some ("DEPRECATED_TAG", t.lineNumber, r.xref) else none))

/-- The spec's deprecated set for GEDCOM 5.5 and 5.5.1: {UID, CREA, MIME}. -/
def tagSet55 (t : Str) : Bool :=
  ["UID".toList, "CREA".toList, "MIME".toList].contains t

/-- The spec's deprecated set for GEDCOM 7.0:
{AFN, RFN, REFN, RIN, EMAIL, FAX, WWW}. -/
def tagSet70 (t : Str) : Bool :=
  ["AFN".toList, "RFN".toList, "REFN".toList, "RIN".toList,
   "EMAIL".toList, "FAX".toList, "WWW".toList].contains t

/-- One step of the parent relation: `b` is a parent of `a` resolved
through FAMC → HUSB/WIFE. -/
def parentStep (doc : Document) (a b : Individual) : Prop := b ∈ parents doc a

/-- An ancestry cycle through `ind`: a nonempty chain of parent steps from
`ind` back to `ind`. -/
def hasAncestryCycle (doc : Document) (ind : Individual) : Prop :=
  Relation.TransGen (parentStep doc) ind ind

/-- Per-token outcome trace of the recovery loop: the `i`-th entry is the
result of the `ParseLine` call on the `i`-th token. -/
def outcomesLoop (p : Parser) (prev : Str) : List Str → List (Except ParseError Line)
  | [] => []
  | t :: ts =>
    match ParseLine p t with
    | (p1, .error e) => .error (enrichParseError e prev t) :: outcomesLoop p1 prev ts
    | (p1, .ok l) => .ok l :: outcomesLoop p1 t ts

/-- The recorded line number of an outcome: the `LineNumber` of an accepted
line, the `Line` field of a parse error. -/
def outcomeNumber : Except ParseError Line → Nat
  | .ok l => l.lineNumber
  | .error e => e.line

/-- Projection of an outcome to an accepted line (`none` for errors). -/
def outcomeOk : Except ParseError Line → Option Line
  | .ok l => some l
  | .error _ => none

/-- Projection of an outcome to a parse error (`none` for accepted lines). -/
def outcomeErr : Except ParseError Line → Option ParseError
  | .ok _ => none
  | .error e => some e

/-- Decidable equality of parse outcomes. -/
instance {α β : Type} [DecidableEq α] [DecidableEq β] : DecidableEq (Except α β) := fun a b =>
  match a, b with
  | .ok x, .ok y => if h : x = y then isTrue (by rw [h]) else isFalse (by simp [h])
  | .ok _, .error _ => isFalse (by simp)
  | .error _, .ok _ => isFalse (by simp)
  | .error x, .error y => if h : x = y then isTrue (by rw [h]) else isFalse (by simp [h])

/-- DFS progress measure: the number of individual xrefs not yet on the
`visiting` path. -/
def circMeasure (doc : Document) (vg : List Str) : Nat :=
  ((doc.individuals.map Individual.xref).filter (fun s => !(vg.contains s))).length

/-- Invariant of the circular-ancestry DFS: every fully-explored individual
(xref in `vd`) has no parent edge into the target and every parent lands in
the visiting path or the explored set. -/
def circInv (doc : Document) (target : Str) (vg vd : List Str) : Prop :=
  ∀ y ∈ doc.individuals, y.xref ∈ vd → ∀ z ∈ parents doc y,
    z.xref ≠ target ∧ (z.xref ∈ vg ∨ z.xref ∈ vd)

end Gedcom

namespace Gedcom

/-- C3: `ParseWithRecovery` on `"0 HEAD\nINVALID\n0 TRLR\n"` skips the
unparsable line, returns exactly the two lines tagged HEAD and TRLR, and
one error whose enriched context names the most recent successfully parsed
raw line: `"prev: 0 HEAD | line: INVALID"`. -/
theorem claim_C3 :
    (ParseWithRecovery NewParser ("0 HEAD\nINVALID\n0 TRLR\n".toList)).1.map Line.tag =
      ["HEAD".toList, "TRLR".toList] ∧
    (ParseWithRecovery NewParser ("0 HEAD\nINVALID\n0 TRLR\n".toList)).1.length = 2 ∧
    (ParseWithRecovery NewParser ("0 HEAD\nINVALID\n0 TRLR\n".toList)).2.map ParseError.context =
      ["prev: 0 HEAD | line: INVALID".toList] ∧
    (ParseWithRecovery NewParser ("0 HEAD\nINVALID\n0 TRLR\n".toList)).2.length = 1 := by
  decide

/-- C1 counterexample: the field `@I-1@` starts and ends with `@`, contains
a character (`-`) outside `[A-Za-z0-9_]` between the delimiters, yet
`ParseLine` accepts it as the line's xref instead of returning an
InvalidXRef error. -/
theorem claim_C1_counterexample :
    (ParseLine NewParser ("0 @I-1@ INDI".toList)).2 =
      .ok { level := 0, tag := "INDI".toList, value := [], xref := "@I-1@".toList, lineNumber := 1 } ∧
    (("@I-1@".toList.drop 1).dropLast.all validTagChar) = false := by
  decide

/-- C2 counterexample: a line sequence whose first line is a level-0 TRLR
and whose last line is a level-0 HEAD (so HEAD is not at the start and TRLR
is not at the end) is accepted by `validateStructure` with no error,
contradicting the claimed position requirement. -/
theorem claim_C2_counterexample :
    validateStructure
      [{ level := 0, tag := "TRLR".toList, value := [], xref := [], lineNumber := 1 },
       { level := 0, tag := "HEAD".toList, value := [], xref := [], lineNumber := 2 }] = [] ∧
    ([{ level := (0 : Int), tag := "TRLR".toList, value := ([] : Str), xref := ([] : Str), lineNumber := 1 },
      { level := 0, tag := "HEAD".toList, value := [], xref := [], lineNumber := 2 }] :
        List Line).head?.map Line.tag ≠ some ("HEAD".toList) := by
  decide

/-- C4 counterexample: after accepting `0 HEAD` the recorded previous level
is `p = 0`; the next line `200 X` has level `l = 200 > p + 1`, yet
`ParseLine` reports an InvalidLevel (exceeds max depth) error, not a
LevelMismatch carrying `(p, l)`. -/
theorem claim_C4_counterexample :
    (ParseLine NewParser ("0 HEAD".toList)).1.lastLevel = 0 ∧
    atoi ("200".toList) = some 200 ∧ ((200 : Int) > 0 + 1) ∧
    (ParseLine (ParseLine NewParser ("0 HEAD".toList)).1 ("200 X".toList)).2 =
      .error (mkParseError 2 "maximum nesting depth exceeded" ("200 X".toList)
        (some (.invalidLevel ("200".toList) "exceeds max depth"))) := by
  decide

theorem ParseLine_lineNumber (p : Parser) (input : Str) :
    (ParseLine p input).1.lineNumber = p.lineNumber + 1 := by
  unfold ParseLine
  dsimp only
  repeat' split
  all_goals rfl

theorem ParseLine_ok_inv (p : Parser) (input : Str) (p' : Parser) (l : Line)
    (h : ParseLine p input = (p', .ok l)) :
    p'.lastLevel = l.level ∧ p'.lineNumber = p.lineNumber + 1 ∧
    l.lineNumber = p.lineNumber + 1 ∧
    (p.lastLevel ≥ 0 → l.level ≤ p.lastLevel + 1) ∧ p'.maxDepth = p.maxDepth := by
  unfold ParseLine at h
  dsimp only at h
  repeat' split at h
  all_goals simp_all [Prod.ext_iff]
  all_goals (obtain ⟨h1, h2⟩ := h; subst h1; subst h2; simp_all)

theorem ParseLine_error_inv (p : Parser) (input : Str) (p' : Parser) (e : ParseError)
    (h : ParseLine p input = (p', .error e)) :
    p' = { p with lineNumber := p.lineNumber + 1 } ∧ e.line = p.lineNumber + 1 := by
  unfold ParseLine at h
  dsimp only at h
  repeat' split at h
  all_goals simp_all [Prod.ext_iff, mkParseError]
  all_goals rw [← h.2]

theorem fieldsAux_all_space (s : Str) (h : ∀ c ∈ s, isSpace c = true) : fieldsAux s [] = [] := by
  induction s with
  | nil => rfl
  | cons c rest ih =>
    have hc : isSpace c = true := h c (by simp)
    simp only [fieldsAux, hc, if_true, if_pos rfl]
    exact ih (fun d hd => h d (by simp [hd]))

theorem fields_all_space (s : Str) (h : s.all isSpace = true) : fields s = [] :=
  fieldsAux_all_space s (by simpa [List.all_eq_true] using h)

theorem ParseLine_xref_red (p : Parser) (input : Str) (lvl xf : Str) (rest : List Str) (L : Int)
    (hf : fields (trimRightNewlines input) = lvl :: xf :: rest)
    (hL : atoi lvl = some L) (h0 : 0 ≤ L)
    (hcap : ¬(L > (if p.maxDepth ≤ 0 then MaxNestingDepth else p.maxDepth)))
    (hjump : ¬(p.lastLevel ≥ 0 ∧ L > p.lastLevel + 1))
    (hx : isXRefField xf = true) :
    ParseLine p input =
      (match validateXRef xf with
       | some e =>
         ({ p with lineNumber := p.lineNumber + 1 },
          .error (mkParseError (p.lineNumber + 1) (innerMessage e) (trimRightNewlines input) (some e)))
       | none =>
         List.casesOn rest
           ({ p with lineNumber := p.lineNumber + 1 },
            Except.error (mkParseError (p.lineNumber + 1)
              "line with xref must have a tag (expected a tag like INDI, FAM, or SOUR)"
              (trimRightNewlines input) none))
           (fun tag tl =>
             match validateTag tag with
             | some e =>
               ({ p with lineNumber := p.lineNumber + 1 },
                Except.error (mkParseError (p.lineNumber + 1)
                  (innerMessage e ++ " (expected A-Z, 0-9, underscore, max length 31)")
                  (trimRightNewlines input) (some e)))
             | none =>
               ({ p with lineNumber := p.lineNumber + 1, lastLevel := L },
                Except.ok (mkLine L tag (valueFrom (trimRightNewlines input) (tl.length + 3) 3) xf (p.lineNumber + 1))))) := by
  unfold ParseLine
  dsimp only
  split
  case isTrue h' =>
    exact absurd (fields_all_space _ h') (by rw [hf]; simp)
  case isFalse h' =>
    simp only [hf]
    simp only [hL]
    rw [if_neg (not_lt.mpr h0), if_neg hcap, if_neg hjump, hx]
    simp only [if_pos rfl]
    cases rest <;> rfl

theorem validateXRef_none_iff (x : Str) :
    validateXRef x = none ↔ 3 ≤ x.length ∧ x.count '@' = 2 := by
  unfold validateXRef
  repeat' split
  all_goals simp_all
  all_goals omega

theorem validateXRef_some_shape (x : Str) (e : InnerErr) (h : validateXRef x = some e) :
    ∃ r, e = .invalidXRef x r := by
  unfold validateXRef at h
  repeat' split at h
  all_goals simp_all
  · exact ⟨_, h.symm⟩
  · exact ⟨_, h.symm⟩

/-- C1 (amended): for a line that passes the level checks and whose second
field starts and ends with `@`, ParseLine accepts the field as the line's
xref exactly when it has length at least 3 and exactly two `@` characters
(the content between the delimiters is not otherwise restricted); a field
violating these conditions yields an InvalidXRef error and no Line. -/
theorem claim_C1 (p : Parser) (input : Str) (lvl xf : Str) (rest : List Str) (L : Int)
    (hf : fields (trimRightNewlines input) = lvl :: xf :: rest)
    (hL : atoi lvl = some L) (h0 : 0 ≤ L)
    (hcap : ¬(L > (if p.maxDepth ≤ 0 then MaxNestingDepth else p.maxDepth)))
    (hjump : ¬(p.lastLevel ≥ 0 ∧ L > p.lastLevel + 1))
    (hx : isXRefField xf = true) :
    (∀ l : Line, (ParseLine p input).2 = .ok l →
        l.xref = xf ∧ 3 ≤ xf.length ∧ xf.count '@' = 2) ∧
    (¬(3 ≤ xf.length ∧ xf.count '@' = 2) →
      ∃ reason, (ParseLine p input).2 =
        .error (mkParseError (p.lineNumber + 1) (innerMessage (.invalidXRef xf reason))
          (trimRightNewlines input) (some (.invalidXRef xf reason)))) := by
  have hred := ParseLine_xref_red p input lvl xf rest L hf hL h0 hcap hjump hx
  constructor
  · intro l hok
    rw [hred] at hok
    cases hvx : validateXRef xf with
    | some e => simp [hvx] at hok
    | none =>
      have hsh := (validateXRef_none_iff xf).mp hvx
      cases rest with
      | nil => simp [hvx] at hok
      | cons tag tl =>
        cases hvt : validateTag tag with
        | some e => simp [hvx, hvt] at hok
        | none =>
          simp [hvx, hvt] at hok
          exact ⟨by rw [← hok]; rfl, hsh⟩
  · intro hbad
    cases hvx : validateXRef xf with
    | none => exact absurd ((validateXRef_none_iff xf).mp hvx) hbad
    | some e =>
      obtain ⟨r, hr⟩ := validateXRef_some_shape xf e hvx
      refine ⟨r, ?_⟩
      rw [hred, hvx, hr]

theorem ParseLine_tag_red (p : Parser) (input : Str) (lvl part1 : Str) (rest : List Str) (L : Int)
    (hf : fields (trimRightNewlines input) = lvl :: part1 :: rest)
    (hL : atoi lvl = some L) (h0 : 0 ≤ L)
    (hcap : ¬(L > (if p.maxDepth ≤ 0 then MaxNestingDepth else p.maxDepth)))
    (hjump : ¬(p.lastLevel ≥ 0 ∧ L > p.lastLevel + 1))
    (hx : isXRefField part1 = false) :
    ParseLine p input =
      (match validateTag part1 with
       | some e =>
         ({ p with lineNumber := p.lineNumber + 1 },
          .error (mkParseError (p.lineNumber + 1)
            (innerMessage e ++ " (expected A-Z, 0-9, underscore, max length 31)")
            (trimRightNewlines input) (some e)))
       | none =>
         ({ p with lineNumber := p.lineNumber + 1, lastLevel := L },
          .ok (mkLine L part1 (valueFrom (trimRightNewlines input) (rest.length + 2) 2) [] (p.lineNumber + 1)))) := by
  unfold ParseLine
  dsimp only
  split
  case isTrue h' =>
    exact absurd (fields_all_space _ h') (by rw [hf]; simp)
  case isFalse h' =>
    simp only [hf]
    simp only [hL]
    rw [if_neg (not_lt.mpr h0), if_neg hcap, if_neg hjump, hx]
    simp only [Bool.false_eq_true, if_false, mkLine]

theorem ParseLine_depth_err (p : Parser) (input : Str) (lvl part1 : Str) (rest : List Str) (L : Int)
    (hf : fields (trimRightNewlines input) = lvl :: part1 :: rest)
    (hL : atoi lvl = some L) (h0 : 0 ≤ L)
    (hover : L > (if p.maxDepth ≤ 0 then MaxNestingDepth else p.maxDepth)) :
    ParseLine p input =
      ({ p with lineNumber := p.lineNumber + 1 },
       .error (mkParseError (p.lineNumber + 1) "maximum nesting depth exceeded"
         (trimRightNewlines input) (some (.invalidLevel lvl "exceeds max depth")))) := by
  unfold ParseLine
  dsimp only
  split
  case isTrue h' =>
    exact absurd (fields_all_space _ h') (by rw [hf]; simp)
  case isFalse h' =>
    simp only [hf]
    simp only [hL]
    rw [if_neg (not_lt.mpr h0), if_pos hover]

theorem ParseLine_mismatch_err (p : Parser) (input : Str) (lvl part1 : Str) (rest : List Str) (L : Int)
    (hf : fields (trimRightNewlines input) = lvl :: part1 :: rest)
    (hL : atoi lvl = some L) (h0 : 0 ≤ L)
    (hcap : ¬(L > (if p.maxDepth ≤ 0 then MaxNestingDepth else p.maxDepth)))
    (hjump : p.lastLevel ≥ 0 ∧ L > p.lastLevel + 1) :
    ParseLine p input =
      ({ p with lineNumber := p.lineNumber + 1 },
       .error (mkParseError (p.lineNumber + 1) "level jump exceeds one"
         (trimRightNewlines input) (some (.levelMismatch p.lastLevel L)))) := by
  unfold ParseLine
  dsimp only
  split
  case isTrue h' =>
    exact absurd (fields_all_space _ h') (by rw [hf]; simp)
  case isFalse h' =>
    simp only [hf]
    simp only [hL]
    rw [if_neg (not_lt.mpr h0), if_neg hcap, if_pos hjump]

theorem ParseLine_ok_inv2 (p : Parser) (input : Str) (p' : Parser) (l : Line)
    (h : ParseLine p input = (p', .ok l)) :
    p'.lastLevel = l.level ∧ 0 ≤ l.level ∧
    (p.lastLevel ≥ 0 → l.level ≤ p.lastLevel + 1) := by
  unfold ParseLine at h
  dsimp only at h
  repeat' split at h
  all_goals simp_all [Prod.ext_iff]
  all_goals (obtain ⟨h1, h2⟩ := h; subst h1; subst h2; simp_all)

theorem recoverLoop_chain (toks : List Str) :
    ∀ (p : Parser) (prev : Str),
    List.Chain' (fun a b => b.level ≤ a.level + 1) (recoverLoop p prev toks).1 ∧
    (∀ l, ((recoverLoop p prev toks).1.head? = some l) → p.lastLevel ≥ 0 → l.level ≤ p.lastLevel + 1) := by
  induction toks with
  | nil => intro p prev; simp [recoverLoop]
  | cons t ts ih =>
    intro p prev
    match hpl : ParseLine p t with
    | (p1, .error e) =>
      have hinv := ParseLine_error_inv p t p1 e hpl
      have hlast : p1.lastLevel = p.lastLevel := by rw [hinv.1]
      constructor
      · simpa [recoverLoop, hpl] using (ih p1 prev).1
      · intro l hl hge
        rw [show (recoverLoop p prev (t :: ts)).1 = (recoverLoop p1 prev ts).1 by simp [recoverLoop, hpl]] at hl
        have := (ih p1 prev).2 l hl (by rw [hlast]; exact hge)
        rw [hlast] at this
        exact this
    | (p1, .ok l0) =>
      have hinv := ParseLine_ok_inv2 p t p1 l0 hpl
      have hres : (recoverLoop p prev (t :: ts)).1 = l0 :: (recoverLoop p1 t ts).1 := by
        simp [recoverLoop, hpl]
      constructor
      · rw [hres]
        refine List.chain'_cons'.mpr ⟨?_, (ih p1 t).1⟩
        intro y hy
        have := (ih p1 t).2 y hy (by rw [hinv.1]; exact hinv.2.1)
        rw [hinv.1] at this
        exact this
      · intro l hl hge
        rw [hres] at hl
        simp at hl
        rw [← hl]
        exact hinv.2.2 hge

/-- C4 (amended): every sequence of lines accepted by successive ParseLine
calls has each accepted level at most one greater than the previously
accepted level; and when a previous level p ≥ 0 is recorded and the current
line parses to a level l within the depth cap with l > p + 1, ParseLine
returns a LevelMismatch error carrying (p, l) and accepts no Line. -/
theorem claim_C4 :
    (∀ (p : Parser) (prev : Str) (toks : List Str),
       List.Chain' (fun a b => b.level ≤ a.level + 1) (recoverLoop p prev toks).1) ∧
    (∀ (p : Parser) (input lvl part1 : Str) (rest : List Str) (L : Int),
       fields (trimRightNewlines input) = lvl :: part1 :: rest →
       atoi lvl = some L → 0 ≤ L →
       ¬(L > (if p.maxDepth ≤ 0 then MaxNestingDepth else p.maxDepth)) →
       p.lastLevel ≥ 0 → L > p.lastLevel + 1 →
       (ParseLine p input).2 =
         .error (mkParseError (p.lineNumber + 1) "level jump exceeds one"
           (trimRightNewlines input) (some (.levelMismatch p.lastLevel L)))) := by
  constructor
  · intro p prev toks
    exact (recoverLoop_chain toks p prev).1
  · intro p input lvl part1 rest L hf hL h0 hcap hge hgt
    rw [ParseLine_mismatch_err p input lvl part1 rest L hf hL h0 hcap ⟨hge, hgt⟩]

/-- Witness for C4: with previous level 0 recorded, the line `2 X` is
rejected with LevelMismatch(0, 2). -/
theorem claim_C4_witness :
    (ParseLine { lineNumber := 1, lastLevel := 0, maxDepth := 100 } ("2 X".toList)).2 =
      .error (mkParseError 2 "level jump exceeds one" ("2 X".toList)
        (some (.levelMismatch 0 2))) :=
  claim_C4.2 { lineNumber := 1, lastLevel := 0, maxDepth := 100 } ("2 X".toList)
    ("2".toList) ("X".toList) [] 2 (by decide) (by decide) (by decide) (by decide)
    (by decide) (by decide)

/-- C9: a line whose level equals the configured maximum nesting depth is
accepted and one whose level is greater is rejected with an InvalidLevel
error whose reason is exceeding the maximum depth; SetMaxNestingDepth with
a zero or negative argument resets the cap to the default of 100. -/
theorem claim_C9 :
    MaxNestingDepth = 100 ∧
    (∀ (q : Parser) (m : Int),
       (SetMaxNestingDepth q m).maxDepth = if m ≤ 0 then MaxNestingDepth else m) ∧
    (∀ (p : Parser) (input lvl tagStr : Str) (d : Int),
       p.maxDepth = d → 0 < d →
       ¬(p.lastLevel ≥ 0 ∧ d > p.lastLevel + 1) →
       fields (trimRightNewlines input) = [lvl, tagStr] →
       atoi lvl = some d → isXRefField tagStr = false → validateTag tagStr = none →
       (ParseLine p input).2 = .ok (mkLine d tagStr [] [] (p.lineNumber + 1))) ∧
    (∀ (p : Parser) (input lvl part1 : Str) (rest : List Str) (L : Int),
       fields (trimRightNewlines input) = lvl :: part1 :: rest →
       atoi lvl = some L → 0 ≤ L → p.maxDepth > 0 → L > p.maxDepth →
       (ParseLine p input).2 =
         .error (mkParseError (p.lineNumber + 1) "maximum nesting depth exceeded"
           (trimRightNewlines input) (some (.invalidLevel lvl "exceeds max depth")))) := by
  refine ⟨rfl, ?_, ?_, ?_⟩
  · intro q m
    unfold SetMaxNestingDepth
    split
    · rfl
    · rfl
  · intro p input lvl tagStr d hd h0d hjump hf hL hx hvt
    have hcap : ¬(d > (if p.maxDepth ≤ 0 then MaxNestingDepth else p.maxDepth)) := by
      rw [hd, if_neg (by omega)]
      omega
    have hred := ParseLine_tag_red p input lvl tagStr [] d hf hL (le_of_lt h0d) hcap hjump hx
    rw [hred]
    simp [hvt, mkLine, valueFrom]
  · intro p input lvl part1 rest L hf hL h0 hpos hover
    have hover' : L > (if p.maxDepth ≤ 0 then MaxNestingDepth else p.maxDepth) := by
      rw [if_neg (by omega)]
      exact hover
    rw [ParseLine_depth_err p input lvl part1 rest L hf hL h0 hover']

/-- Witness for C9: cap resets for 0 and -5, is set for 7; with cap 5 the
line `5 TAG` is accepted and `6 TAG` is rejected as exceeding max depth. -/
theorem claim_C9_witness :
    (SetMaxNestingDepth NewParser 0).maxDepth = 100 ∧
    (SetMaxNestingDepth NewParser (-5)).maxDepth = 100 ∧
    (SetMaxNestingDepth NewParser 7).maxDepth = 7 ∧
    (ParseLine { lineNumber := 0, lastLevel := -1, maxDepth := 5 } ("5 TAG".toList)).2 =
      .ok (mkLine 5 ("TAG".toList) [] [] 1) ∧
    (ParseLine { lineNumber := 0, lastLevel := -1, maxDepth := 5 } ("6 TAG".toList)).2 =
      .error (mkParseError 1 "maximum nesting depth exceeded" ("6 TAG".toList)
        (some (.invalidLevel ("6".toList) "exceeds max depth"))) := by
  refine ⟨?_, ?_, ?_, ?_, ?_⟩
  · rw [claim_C9.2.1 NewParser 0]; decide
  · rw [claim_C9.2.1 NewParser (-5)]; decide
  · rw [claim_C9.2.1 NewParser 7]; decide
  · exact claim_C9.2.2.1 _ _ ("5".toList) ("TAG".toList) 5 rfl (by decide) (by decide)
      (by decide) (by decide) (by decide) (by decide)
  · exact claim_C9.2.2.2 _ _ ("6".toList) ("TAG".toList) [] 6 (by decide) (by decide)
      (by decide) (by decide) (by decide)

/-- Witness for C1: the malformed field `@@` makes ParseLine return an
InvalidXRef error on a concrete line. -/
theorem claim_C1_witness :
    ∃ reason, (ParseLine NewParser ("0 @@ INDI".toList)).2 =
      .error (mkParseError 1 (innerMessage (.invalidXRef ("@@".toList) reason))
        (trimRightNewlines ("0 @@ INDI".toList)) (some (.invalidXRef ("@@".toList) reason))) :=
  (claim_C1 NewParser ("0 @@ INDI".toList) ("0".toList) ("@@".toList) ["INDI".toList] 0
    (by decide) (by decide) (by decide) (by decide) (by decide) (by decide)).2 (by decide)

theorem outcomesLoop_length (toks : List Str) :
    ∀ (p : Parser) (prev : Str), (outcomesLoop p prev toks).length = toks.length := by
  induction toks with
  | nil => intro p prev; rfl
  | cons t ts ih =>
    intro p prev
    match hpl : ParseLine p t with
    | (p1, .error e) => simp [outcomesLoop, hpl, ih]
    | (p1, .ok l) => simp [outcomesLoop, hpl, ih]

theorem outcomesLoop_number (toks : List Str) :
    ∀ (p : Parser) (prev : Str) (i : Nat) (o : Except ParseError Line),
      (outcomesLoop p prev toks)[i]? = some o →
      outcomeNumber o = p.lineNumber + i + 1 := by
  induction toks with
  | nil => intro p prev i o h; simp [outcomesLoop] at h
  | cons t ts ih =>
    intro p prev i o h
    match hpl : ParseLine p t with
    | (p1, .error e) =>
      have hln : p1.lineNumber = p.lineNumber + 1 := by
        have := ParseLine_error_inv p t p1 e hpl
        rw [this.1]
      have he : e.line = p.lineNumber + 1 := (ParseLine_error_inv p t p1 e hpl).2
      rw [show outcomesLoop p prev (t :: ts) =
        .error (enrichParseError e prev t) :: outcomesLoop p1 prev ts by
          simp [outcomesLoop, hpl]] at h
      match i with
      | 0 =>
        simp at h
        rw [← h]
        simpa [outcomeNumber, enrichParseError] using he
      | Nat.succ j =>
        simp at h
        have := ih p1 prev j o h
        rw [hln] at this
        rw [this]
        omega
    | (p1, .ok l) =>
      have hln : p1.lineNumber = p.lineNumber + 1 := by
        have h' := ParseLine_lineNumber p t
        rw [hpl] at h'
        exact h'
      have hl : l.lineNumber = p.lineNumber + 1 := (ParseLine_ok_inv p t p1 l hpl).2.2.1
      rw [show outcomesLoop p prev (t :: ts) = .ok l :: outcomesLoop p1 t ts by
        simp [outcomesLoop, hpl]] at h
      match i with
      | 0 =>
        simp at h
        rw [← h]
        simpa [outcomeNumber] using hl
      | Nat.succ j =>
        simp at h
        have := ih p1 t j o h
        rw [hln] at this
        rw [this]
        omega

theorem recoverLoop_outcomes (toks : List Str) :
    ∀ (p : Parser) (prev : Str),
      recoverLoop p prev toks =
        ((outcomesLoop p prev toks).filterMap outcomeOk,
         (outcomesLoop p prev toks).filterMap outcomeErr) := by
  induction toks with
  | nil => intro p prev; rfl
  | cons t ts ih =>
    intro p prev
    match hpl : ParseLine p t with
    | (p1, .error e) => simp [recoverLoop, outcomesLoop, hpl, ih, outcomeOk, outcomeErr]
    | (p1, .ok l) => simp [recoverLoop, outcomesLoop, hpl, ih, outcomeOk, outcomeErr]

/-- C10: ParseLine increments its 1-based line counter on every call,
errors included; in recovery mode the i-th token's outcome records line
number i + 1 whether accepted or rejected, and ParseWithRecovery returns
exactly the accepted lines and enriched errors of that outcome trace. -/
theorem claim_C10 (p : Parser) (input : Str) :
    (∀ (q : Parser) (t : Str), (ParseLine q t).1.lineNumber = q.lineNumber + 1) ∧
    (outcomesLoop (Reset p) [] (gedcomTokens input)).length = (gedcomTokens input).length ∧
    (∀ (i : Nat) (o : Except ParseError Line),
       (outcomesLoop (Reset p) [] (gedcomTokens input))[i]? = some o →
       outcomeNumber o = i + 1) ∧
    ParseWithRecovery p input =
      ((outcomesLoop (Reset p) [] (gedcomTokens input)).filterMap outcomeOk,
       (outcomesLoop (Reset p) [] (gedcomTokens input)).filterMap outcomeErr) := by
  refine ⟨ParseLine_lineNumber, outcomesLoop_length _ _ _, ?_, ?_⟩
  · intro i o h
    have := outcomesLoop_number (gedcomTokens input) (Reset p) [] i o h
    simpa [Reset] using this
  · exact recoverLoop_outcomes _ _ _

/-- Witness for C10: in the three-token recovery run the second outcome
(the rejected line) records line number 2. -/
theorem claim_C10_witness :
    ∀ (o : Except ParseError Line),
      (outcomesLoop (Reset NewParser) [] (gedcomTokens ("0 HEAD\nINVALID\n0 TRLR\n".toList)))[1]? = some o →
      outcomeNumber o = 2 :=
  fun o h => (claim_C10 NewParser ("0 HEAD\nINVALID\n0 TRLR\n".toList)).2.2.1 1 o h

theorem scanAux_app (cs : Str) (h : ∀ c ∈ cs, c ≠ '\r' ∧ c ≠ '\n') :
    ∀ (acc rest0 : Str) (atEOF : Bool),
      scanAux acc (cs ++ rest0) atEOF = scanAux (cs.reverse ++ acc) rest0 atEOF := by
  induction cs with
  | nil => intro acc rest0 atEOF; simp
  | cons c cs' ih =>
    intro acc rest0 atEOF
    have hc := h c (by simp)
    rw [List.cons_append]
    rw [show scanAux acc (c :: (cs' ++ rest0)) atEOF = scanAux (c :: acc) (cs' ++ rest0) atEOF by
      conv_lhs => rw [scanAux.eq_def]
      dsimp only
      rw [if_neg (show ¬(c = '\n') by simpa using hc.2)]
      rw [if_neg (show ¬(c = '\r') by simpa using hc.1)]]
    rw [ih (fun d hd => h d (by simp [hd])) (c :: acc) rest0 atEOF]
    simp

/-- C8: ScanGEDCOMLines on a buffer ending in a standalone CR requests more
bytes when not at EOF, consumes the CR as a terminator at EOF, and always
consumes CR followed by LF as a single two-byte terminator, so a
CRLF-terminated line is never split across a buffer boundary. -/
theorem claim_C8 (cs : Str) (h : ∀ c ∈ cs, c ≠ '\r' ∧ c ≠ '\n') :
    ScanGEDCOMLines (cs ++ ['\r']) false = (0, none) ∧
    ScanGEDCOMLines (cs ++ ['\r']) true = (cs.length + 1, some cs) ∧
    (∀ (rest : Str) (atEOF : Bool),
       ScanGEDCOMLines (cs ++ '\r' :: '\n' :: rest) atEOF = (cs.length + 2, some cs)) := by
  refine ⟨?_, ?_, ?_⟩
  · rw [ScanGEDCOMLines, if_neg (by simp)]
    rw [scanAux_app cs h [] ['\r'] false]
    unfold scanAux
    simp
  · rw [ScanGEDCOMLines, if_neg (by simp)]
    rw [scanAux_app cs h [] ['\r'] true]
    unfold scanAux
    simp
  · intro rest atEOF
    rw [ScanGEDCOMLines, if_neg (by simp)]
    rw [scanAux_app cs h [] ('\r' :: '\n' :: rest) atEOF]
    unfold scanAux
    simp

/-- Witness for C8: the scanner behavior on the concrete buffer `0 HEAD`
with CR, CR at EOF, and CRLF. -/
theorem claim_C8_witness :
    ScanGEDCOMLines ("0 HEAD".toList ++ ['\r']) false = (0, none) ∧
    ScanGEDCOMLines ("0 HEAD".toList ++ ['\r']) true = (7, some ("0 HEAD".toList)) ∧
    ScanGEDCOMLines ("0 HEAD".toList ++ '\r' :: '\n' :: ("1 GEDC".toList)) false =
      (8, some ("0 HEAD".toList)) := by
  have h := claim_C8 ("0 HEAD".toList) (by decide)
  exact ⟨h.1, h.2.1, h.2.2 ("1 GEDC".toList) false⟩

theorem any_level0_tag_iff (lines : List Line) (tg : Str) :
    (lines.any (fun l => l.level = 0 && l.tag = tg) = true) ↔
      (∃ l ∈ lines, l.level = 0 ∧ l.tag = tg) := by
  simp [List.any_eq_true, Bool.and_eq_true, decide_eq_true_eq]

theorem validateStructure_cons (first : Line) (restL : List Line) :
    validateStructure (first :: restL) =
      (if (first :: restL).any (fun l => l.level = 0 && l.tag = "HEAD".toList) then ([] : List DecodeErr)
       else [.missingHeader first.lineNumber (formatLineContext first)]) ++
      (if (first :: restL).any (fun l => l.level = 0 && l.tag = "TRLR".toList) then ([] : List DecodeErr)
       else [.missingTrailer ((first :: restL).getLastD first).lineNumber
         (formatLineContext ((first :: restL).getLastD first))]) := rfl

/-- C2 (amended): validateStructure returns no error exactly when the
nonempty line sequence contains some level-0 HEAD line and some level-0
TRLR line, at any positions and multiplicities; a missing HEAD is reported
with a MissingHeader error, a missing TRLR with a MissingTrailer error,
every reported error is one of the two, and the empty sequence reports
only MissingHeader. -/
theorem claim_C2 :
    validateStructure [] = [.missingHeader 0 []] ∧
    ∀ (lines : List Line), lines ≠ [] →
      ((validateStructure lines = [] ↔
         ((∃ l ∈ lines, l.level = 0 ∧ l.tag = "HEAD".toList) ∧
          (∃ l ∈ lines, l.level = 0 ∧ l.tag = "TRLR".toList))) ∧
       ((¬∃ l ∈ lines, l.level = 0 ∧ l.tag = "HEAD".toList) →
          ∃ n c, DecodeErr.missingHeader n c ∈ validateStructure lines) ∧
       ((¬∃ l ∈ lines, l.level = 0 ∧ l.tag = "TRLR".toList) →
          ∃ n c, DecodeErr.missingTrailer n c ∈ validateStructure lines) ∧
       (∀ e ∈ validateStructure lines,
          (∃ n c, e = .missingHeader n c) ∨ (∃ n c, e = .missingTrailer n c))) := by
  constructor
  · rfl
  · intro lines hne
    match lines, hne with
    | first :: restL, _ =>
      have hHiff := any_level0_tag_iff (first :: restL) ("HEAD".toList)
      have hTiff := any_level0_tag_iff (first :: restL) ("TRLR".toList)
      rw [validateStructure_cons]
      by_cases hH : ((first :: restL).any (fun l => l.level = 0 && l.tag = "HEAD".toList)) = true <;>
        by_cases hT : ((first :: restL).any (fun l => l.level = 0 && l.tag = "TRLR".toList)) = true
      · rw [if_pos hH, if_pos hT]
        have hA := hHiff.mp hH
        have hB := hTiff.mp hT
        exact ⟨iff_of_true (by simp) ⟨hA, hB⟩, fun hcon => absurd hA hcon,
          fun hcon => absurd hB hcon, by simp⟩
      · rw [if_pos hH, if_neg hT]
        have hA := hHiff.mp hH
        have hnB : ¬∃ l ∈ first :: restL, l.level = 0 ∧ l.tag = "TRLR".toList :=
          fun hB => hT (hTiff.mpr hB)
        refine ⟨iff_of_false (by simp) (fun hab => hnB hab.2), fun hcon => absurd hA hcon,
          fun _ => ⟨((first :: restL).getLastD first).lineNumber,
            formatLineContext ((first :: restL).getLastD first), by simp⟩, ?_⟩
        rintro e he
        simp at he
        subst he
        exact Or.inr ⟨_, _, rfl⟩
      · rw [if_neg hH, if_pos hT]
        have hB := hTiff.mp hT
        have hnA : ¬∃ l ∈ first :: restL, l.level = 0 ∧ l.tag = "HEAD".toList :=
          fun hA => hH (hHiff.mpr hA)
        refine ⟨iff_of_false (by simp) (fun hab => hnA hab.1),
          fun _ => ⟨first.lineNumber, formatLineContext first, by simp⟩,
          fun hcon => absurd hB hcon, ?_⟩
        rintro e he
        simp at he
        subst he
        exact Or.inl ⟨_, _, rfl⟩
      · rw [if_neg hH, if_neg hT]
        have hnA : ¬∃ l ∈ first :: restL, l.level = 0 ∧ l.tag = "HEAD".toList :=
          fun hA => hH (hHiff.mpr hA)
        have hnB : ¬∃ l ∈ first :: restL, l.level = 0 ∧ l.tag = "TRLR".toList :=
          fun hB => hT (hTiff.mpr hB)
        refine ⟨iff_of_false (by simp) (fun hab => hnA hab.1),
          fun _ => ⟨first.lineNumber, formatLineContext first, by simp⟩,
          fun _ => ⟨((first :: restL).getLastD first).lineNumber,
            formatLineContext ((first :: restL).getLastD first), by simp⟩, ?_⟩
        rintro e he
        simp at he
        rcases he with he | he
        · subst he; exact Or.inl ⟨_, _, rfl⟩
        · subst he; exact Or.inr ⟨_, _, rfl⟩

/-- Witness for C2: a concrete HEAD/TRLR sequence passes validateStructure
with no error. -/
theorem claim_C2_witness :
    validateStructure
      [{ level := 0, tag := "HEAD".toList, value := [], xref := [], lineNumber := 1 },
       { level := 0, tag := "TRLR".toList, value := [], xref := [], lineNumber := 2 }] = [] :=
  (claim_C2.2 _ (by decide)).1.mpr
    ⟨⟨{ level := 0, tag := "HEAD".toList, value := [], xref := [], lineNumber := 1 },
       by simp, by decide⟩,
     ⟨{ level := 0, tag := "TRLR".toList, value := [], xref := [], lineNumber := 2 },
       by simp, by decide⟩⟩

theorem depLookup_isSome_contains (m : List (Str × String)) (t : Str) :
    (depLookup m t).isSome = (m.map Prod.fst).contains t := by
  induction m with
  | nil => rfl
  | cons q m ih =>
    by_cases h : q.1 = t
    · have h1 : depLookup (q :: m) t = some q.2 := by
        unfold depLookup
        rw [List.find?_cons_of_pos _ (by simpa using h)]
        rfl
      rw [h1, List.map_cons, List.contains_cons,
        show (t == q.1) = true from beq_iff_eq.mpr h.symm, Bool.true_or]
      rfl
    · have h1 : depLookup (q :: m) t = depLookup m t := by
        unfold depLookup
        rw [List.find?_cons_of_neg _ (by simpa using h)]
      have hbeq : (t == q.1) = false := beq_eq_false_iff_ne.mpr (fun hc => h hc.symm)
      rw [h1, ih, List.map_cons, List.contains_cons, hbeq, Bool.false_or]

theorem dep55_isSome (t : Str) : (depLookup dep55 t).isSome = tagSet55 t := by
  rw [depLookup_isSome_contains]
  simp only [dep55, List.map_cons, List.map_nil]
  rfl

theorem dep70_isSome (t : Str) : (depLookup dep70 t).isSome = tagSet70 t := by
  rw [depLookup_isSome_contains, Bool.eq_iff_iff]
  simp only [dep70, List.map_cons, List.map_nil]
  simp [tagSet70, List.contains_cons, beq_iff_eq]
  tauto

theorem validateDeprecatedTags_keys (doc : Document) (v : Version)
    (dep : List (Str × String)) (S : Str → Bool)
    (hS : ∀ t, (depLookup dep t).isSome = S t) :
    (validateDeprecatedTags doc v dep).map issueKey = depIssueKeysSpec doc S := by
  unfold validateDeprecatedTags depIssueKeysSpec
  rw [List.map_flatMap]
  apply List.flatMap_congr
  intro r _
  rw [List.map_append, List.map_filterMap]
  congr 1
  · cases hd : depLookup dep r.type with
    | some reason =>
      have : S r.type = true := by rw [← hS]; rw [hd]; rfl
      simp [this, issueKey]
    | none =>
      have : S r.type = false := by rw [← hS]; rw [hd]; rfl
      simp [this]
  · apply List.filterMap_congr
    intro t _
    cases hd : depLookup dep t.tag with
    | some reason =>
      have : S t.tag = true := by rw [← hS]; rw [hd]; rfl
      simp [hd, this, issueKey]
    | none =>
      have : S t.tag = false := by rw [← hS]; rw [hd]; rfl
      simp [hd, this]

/-- C6: with a 5.5 or 5.5.1 header the validator emits a DEPRECATED_TAG
issue exactly for record types and subtree tags in {UID, CREA, MIME}; with
a 7.0 header exactly for {AFN, RFN, REFN, RIN, EMAIL, FAX, WWW}; with no
header or an unknown version it emits no deprecation issue. -/
theorem claim_C6 (doc : Document) :
    (doc.header = none → validateVersionSpecific doc = []) ∧
    (doc.header = some { version := .unknown } → validateVersionSpecific doc = []) ∧
    (doc.header = some { version := .v55 } →
       (validateVersionSpecific doc).map issueKey = depIssueKeysSpec doc tagSet55) ∧
    (doc.header = some { version := .v551 } →
       (validateVersionSpecific doc).map issueKey = depIssueKeysSpec doc tagSet55) ∧
    (doc.header = some { version := .v70 } →
       (validateVersionSpecific doc).map issueKey = depIssueKeysSpec doc tagSet70) := by
  refine ⟨?_, ?_, ?_, ?_, ?_⟩ <;> intro hh <;>
    simp only [validateVersionSpecific, hh, validateV55Rules, validateV551Rules, validateV70Rules]
  · exact validateDeprecatedTags_keys doc .v55 dep55 tagSet55 dep55_isSome
  · exact validateDeprecatedTags_keys doc .v551 dep55 tagSet55 dep55_isSome
  · exact validateDeprecatedTags_keys doc .v70 dep70 tagSet70 dep70_isSome

theorem isXRefValue_iff (v : Str) :
    isXRefValue v = true ↔
      (v.head? = some '@' ∧ v.getLast? = some '@' ∧ 3 ≤ v.length ∧ v ≠ "@VOID@".toList) := by
  unfold isXRefValue
  by_cases h1 : (v.head? = some '@' && v.getLast? = some '@') = true
  · rw [if_neg (by simp [h1])]
    rw [Bool.and_eq_true, decide_eq_true_eq, decide_eq_true_eq] at h1
    by_cases h2 : v.length < 3
    · rw [if_pos h2]
      refine iff_of_false (by simp) ?_
      rintro ⟨_, _, h3, _⟩
      omega
    · rw [if_neg h2]
      by_cases h3 : v = "@VOID@".toList
      · rw [if_pos h3]
        refine iff_of_false (by simp) ?_
        rintro ⟨_, _, _, h4⟩
        exact absurd h3 h4
      · rw [if_neg h3]
        exact iff_of_true rfl ⟨h1.1, h1.2, by omega, h3⟩
  · have h1f : ((v.head? = some '@' : Bool) && (v.getLast? = some '@' : Bool)) = false :=
      Bool.eq_false_iff.mpr h1
    rw [if_pos (by simp [h1f])]
    refine iff_of_false (by simp) ?_
    rintro ⟨ha, hb, _, _⟩
    exact h1 (by simp [ha, hb])

/-- C7: validateXRefs reports a BrokenXRef exactly for every tag whose
value is an xref literal (starts and ends with `@`, length at least 3)
other than `@VOID@` and absent from the xref index, carrying the value,
line number, tag name and enclosing record xref; the concrete `@I99@`
scenario yields exactly one BrokenXRef with xref `@I99@`, tag `HUSB`,
record `@F1@`. -/
theorem claim_C7 :
    (∀ (doc : Document) (e : DecodeErr),
       e ∈ validateXRefs doc ↔
         ∃ r ∈ doc.records, ∃ t ∈ r.tags,
           (t.value.head? = some '@' ∧ t.value.getLast? = some '@' ∧ 3 ≤ t.value.length ∧
            t.value ≠ "@VOID@".toList ∧ ¬(t.value ∈ doc.xrefKeys)) ∧
           e = .brokenXRef t.value t.lineNumber t.tag r.xref
             (trimSpace (t.tag ++ " ".toList ++ t.value))) ∧
    validateXRefs
      { header := none,
        records := [{ xref := "@F1@".toList, type := "FAM".toList,
                      tags := [{ level := 1, tag := "HUSB".toList, value := "@I99@".toList,
                                 xref := [], lineNumber := 2 }],
                      lineNumber := 1 }],
        xrefKeys := ["@F1@".toList], individuals := [], families := [] } =
      [.brokenXRef ("@I99@".toList) 2 ("HUSB".toList) ("@F1@".toList) ("HUSB @I99@".toList)] := by
  constructor
  · intro doc e
    constructor
    · intro he
      rw [validateXRefs, List.mem_flatMap] at he
      obtain ⟨r, hr, ht⟩ := he
      rw [List.mem_filterMap] at ht
      obtain ⟨t, htmem, hsome⟩ := ht
      by_cases hval : isXRefValue t.value = true
      · rw [if_neg (by simp [hval])] at hsome
        by_cases hcon : doc.xrefKeys.contains t.value = true
        · rw [if_pos hcon] at hsome
          simp at hsome
        · rw [if_neg hcon] at hsome
          obtain ⟨h1, h2, h3, h4⟩ := (isXRefValue_iff t.value).mp hval
          refine ⟨r, hr, t, htmem, ⟨h1, h2, h3, h4, ?_⟩, (Option.some.inj hsome).symm⟩
          intro hmem
          exact hcon (by simpa using hmem)
      · have hval2 : isXRefValue t.value = false := Bool.eq_false_iff.mpr hval
        rw [if_pos (by simp [hval2])] at hsome
        simp at hsome
    · rintro ⟨r, hr, t, htmem, ⟨h1, h2, h3, h4, h5⟩, he⟩
      rw [validateXRefs, List.mem_flatMap]
      refine ⟨r, hr, ?_⟩
      rw [List.mem_filterMap]
      refine ⟨t, htmem, ?_⟩
      have hval : isXRefValue t.value = true := (isXRefValue_iff t.value).mpr ⟨h1, h2, h3, h4⟩
      have hcon : ¬(doc.xrefKeys.contains t.value = true) := by
        intro hc
        exact h5 (by simpa using hc)
      rw [if_neg (by simp [hval]), if_neg hcon, he]
  · decide

/-- Witness for C6: a concrete 5.5 document with one UID tag yields exactly
the one expected DEPRECATED_TAG issue key. -/
theorem claim_C6_witness :
    (validateVersionSpecific
      { header := some { version := .v55 },
        records := [{ xref := "@I1@".toList, type := "INDI".toList,
                      tags := [{ level := 1, tag := "UID".toList, value := "abc".toList,
                                 xref := [], lineNumber := 4 }],
                      lineNumber := 3 }],
        xrefKeys := [], individuals := [], families := [] }).map issueKey =
      [("DEPRECATED_TAG", 4, "@I1@".toList)] := by
  rw [(claim_C6
      { header := some { version := .v55 },
        records := [{ xref := "@I1@".toList, type := "INDI".toList,
                      tags := [{ level := 1, tag := "UID".toList, value := "abc".toList,
                                 xref := [], lineNumber := 4 }],
                      lineNumber := 3 }],
        xrefKeys := [], individuals := [], families := [] }).2.2.1 rfl]
  decide

/-- Witness for C7: the membership characterization instantiated on the
concrete broken-`@I99@` document. -/
theorem claim_C7_witness :
    DecodeErr.brokenXRef ("@I99@".toList) 2 ("HUSB".toList) ("@F1@".toList)
      ("HUSB @I99@".toList) ∈
      validateXRefs
        { header := none,
          records := [{ xref := "@F1@".toList, type := "FAM".toList,
                        tags := [{ level := 1, tag := "HUSB".toList, value := "@I99@".toList,
                                   xref := [], lineNumber := 2 }],
                        lineNumber := 1 }],
          xrefKeys := ["@F1@".toList], individuals := [], families := [] } :=
  (claim_C7.1 _ _).mpr
    ⟨{ xref := "@F1@".toList, type := "FAM".toList,
       tags := [{ level := 1, tag := "HUSB".toList, value := "@I99@".toList,
                  xref := [], lineNumber := 2 }],
       lineNumber := 1 }, by simp,
     { level := 1, tag := "HUSB".toList, value := "@I99@".toList, xref := [], lineNumber := 2 },
     by simp, by refine ⟨by decide, by decide, by decide, by decide, by decide⟩, by decide⟩

theorem getIndividual_mem (doc : Document) (x : Str) (i : Individual)
    (h : getIndividual doc x = some i) : i ∈ doc.individuals :=
  List.mem_of_find?_eq_some h

theorem parents_mem (doc : Document) (a y : Individual) (h : y ∈ parents doc a) :
    y ∈ doc.individuals := by
  rw [parents, List.mem_flatMap] at h
  obtain ⟨fx, _, hy⟩ := h
  cases hf : getFamily doc fx with
  | none => rw [hf] at hy; simp at hy
  | some f =>
    rw [hf] at hy
    rw [List.mem_append] at hy
    rcases hy with hy | hy <;>
    · rcases hg : getIndividual doc _ with _ | i <;> rw [hg] at hy <;>
        simp [optList] at hy
      · rw [hy]
        exact getIndividual_mem doc _ _ hg

theorem xref_inj (doc : Document) (hnd : (doc.individuals.map Individual.xref).Nodup)
    (a b : Individual) (ha : a ∈ doc.individuals) (hb : b ∈ doc.individuals)
    (h : a.xref = b.xref) : a = b :=
  List.inj_on_of_nodup_map hnd ha hb h

theorem filter_notcontains_le (l : List Str) (x : Str) (vg : List Str) :
    (l.filter (fun s => !((x :: vg).contains s))).length ≤
      (l.filter (fun s => !(vg.contains s))).length := by
  induction l with
  | nil => simp
  | cons a l ih =>
    by_cases h : (x :: vg).contains a = true
    · rw [List.filter_cons, if_neg (by rw [h]; decide)]
      by_cases h2 : vg.contains a = true
      · rw [List.filter_cons, if_neg (by rw [h2]; decide)]
        exact ih
      · have h2f : vg.contains a = false := Bool.eq_false_iff.mpr h2
        rw [List.filter_cons, if_pos (by rw [h2f]; decide)]
        simp only [List.length_cons]
        omega
    · have hf : (x :: vg).contains a = false := Bool.eq_false_iff.mpr h
      have h2 : vg.contains a = false := by
        rw [List.contains_cons] at hf
        exact (Bool.or_eq_false_iff.mp hf).2
      rw [List.filter_cons, if_pos (by rw [hf]; decide),
        List.filter_cons, if_pos (by rw [h2]; decide)]
      simp only [List.length_cons]
      omega

theorem filter_notcontains_lt (l : List Str) (x : Str) (vg : List Str)
    (hx : x ∈ l) (hnv : vg.contains x = false) :
    (l.filter (fun s => !((x :: vg).contains s))).length <
      (l.filter (fun s => !(vg.contains s))).length := by
  induction l with
  | nil => cases hx
  | cons a l ih =>
    by_cases hax : a = x
    · subst hax
      have hin : (a :: vg).contains a = true := by
        rw [List.contains_cons]
        simp
      rw [List.filter_cons, if_neg (by rw [hin]; decide),
        List.filter_cons, if_pos (by rw [hnv]; decide)]
      simp only [List.length_cons]
      exact Nat.lt_succ_of_le (filter_notcontains_le l a vg)
    · have hx2 : x ∈ l := by
        rcases List.mem_cons.mp hx with h | h
        · exact absurd h.symm hax
        · exact h
      have hc : (x :: vg).contains a = vg.contains a := by
        rw [List.contains_cons]
        have : (a == x) = false := beq_eq_false_iff_ne.mpr hax
        rw [this, Bool.false_or]
      by_cases h2 : vg.contains a = true
      · rw [List.filter_cons, if_neg (by rw [hc, h2]; decide),
          List.filter_cons, if_neg (by rw [h2]; decide)]
        exact ih hx2
      · have h2f : vg.contains a = false := Bool.eq_false_iff.mpr h2
        rw [List.filter_cons, if_pos (by rw [hc, h2f]; decide),
          List.filter_cons, if_pos (by rw [h2f]; decide)]
        simp only [List.length_cons]
        exact Nat.succ_lt_succ (ih hx2)

theorem circMeasure_cons_lt (doc : Document) (x : Str) (vg : List Str)
    (hx : x ∈ doc.individuals.map Individual.xref) (hnv : vg.contains x = false) :
    circMeasure doc (x :: vg) < circMeasure doc vg :=
  filter_notcontains_lt _ x vg hx hnv

theorem circ_false_state (doc : Document) :
    ∀ fuel : Nat,
      (∀ (x : Individual) (target : Str) (vg vd vg' vd' : List Str),
        hasCircAux doc fuel x target vg vd = some (false, vg', vd') →
        vg' = vg ∧ ∀ s ∈ vd, s ∈ vd') ∧
      (∀ (l : List Individual) (target : Str) (vg vd vg' vd' : List Str),
        hasCircList doc fuel l target vg vd = some (false, vg', vd') →
        vg' = vg ∧ ∀ s ∈ vd, s ∈ vd') := by
  intro fuel
  induction fuel with
  | zero =>
    constructor
    · intro x target vg vd vg' vd' h
      simp [hasCircAux] at h
    · intro l target vg vd vg' vd' h
      match l with
      | [] =>
        simp [hasCircList] at h
        exact ⟨h.1.symm, fun s hs => h.2 ▸ hs⟩
      | p :: rest =>
        rw [hasCircList] at h
        split at h
        · simp at h
        · simp [hasCircAux] at h
  | succ fuel ih =>
    have aux1 : ∀ (x : Individual) (target : Str) (vg vd vg' vd' : List Str),
        hasCircAux doc (fuel + 1) x target vg vd = some (false, vg', vd') →
        vg' = vg ∧ ∀ s ∈ vd, s ∈ vd' := by
      intro x target vg vd vg' vd' h
      rw [hasCircAux] at h
      split at h
      · simp at h
        exact ⟨h.1.symm, fun s hs => h.2 ▸ hs⟩
      · split at h
        · simp at h
          exact ⟨h.2.1.symm, fun s hs => h.2.2 ▸ hs⟩
        · split at h
          · simp at h
            exact ⟨h.1.symm, fun s hs => h.2 ▸ hs⟩
          · split at h
            · simp at h
            · simp at h
            · rename_i a b hres
              simp only [Option.some.injEq, Prod.mk.injEq] at h
              obtain ⟨ha, hb⟩ := ih.2 _ _ _ _ _ _ hres
              subst ha
              refine ⟨?_, ?_⟩
              · rw [← h.2.1, List.erase_cons_head]
              · intro s hs
                rw [← h.2.2]
                exact List.mem_cons_of_mem _ (hb s hs)
    refine ⟨aux1, ?_⟩
    intro l target vg vd vg' vd' h
    induction l generalizing vg vd vg' vd' with
    | nil =>
      simp [hasCircList] at h
      exact ⟨h.1.symm, fun s hs => h.2 ▸ hs⟩
    | cons p rest ihl =>
      rw [hasCircList] at h
      split at h
      · simp at h
      · match hres : hasCircAux doc (fuel + 1) p target vg vd with
        | none => rw [hres] at h; simp at h
        | some (true, a, b) => rw [hres] at h; simp at h
        | some (false, a, b) =>
          rw [hres] at h
          simp only at h
          obtain ⟨ha, hb⟩ := aux1 _ _ _ _ _ _ hres
          subst ha
          obtain ⟨ha2, hb2⟩ := ihl _ _ _ _ h
          exact ⟨ha2, fun s hs => hb2 s (hb s hs)⟩

theorem circ_fuel (doc : Document) :
    ∀ fuel : Nat,
      (∀ (x : Individual) (target : Str) (vg vd : List Str),
        x.xref ∈ doc.individuals.map Individual.xref →
        circMeasure doc vg < fuel →
        hasCircAux doc fuel x target vg vd ≠ none) ∧
      (∀ (l : List Individual) (target : Str) (vg vd : List Str),
        (∀ y ∈ l, y.xref ∈ doc.individuals.map Individual.xref) →
        circMeasure doc vg < fuel →
        hasCircList doc fuel l target vg vd ≠ none) := by
  intro fuel
  induction fuel with
  | zero =>
    constructor
    · intro x target vg vd _ hm
      exact absurd hm (by omega)
    · intro l target vg vd _ hm
      exact absurd hm (by omega)
  | succ fuel ih =>
    have aux1 : ∀ (x : Individual) (target : Str) (vg vd : List Str),
        x.xref ∈ doc.individuals.map Individual.xref →
        circMeasure doc vg < fuel + 1 →
        hasCircAux doc (fuel + 1) x target vg vd ≠ none := by
      intro x target vg vd hx hm
      rw [hasCircAux]
      split
      · simp
      · split
        · simp
        · split
          · simp
          · rename_i hemp hvis hvid
            have hnv : vg.contains x.xref = false := Bool.eq_false_iff.mpr hvis
            have hm2 : circMeasure doc (x.xref :: vg) < fuel := by
              have := circMeasure_cons_lt doc x.xref vg hx hnv
              omega
            have hlist := ih.2 (parents doc x) target (x.xref :: vg) vd
              (fun y hy => List.mem_map_of_mem _ (parents_mem doc x y hy)) hm2
            match hres : hasCircList doc fuel (parents doc x) target (x.xref :: vg) vd with
            | none => exact absurd hres hlist
            | some (true, a, b) => simp
            | some (false, a, b) => simp
    refine ⟨aux1, ?_⟩
    intro l target
    induction l with
    | nil => intro vg vd _ _; simp [hasCircList]
    | cons p rest ihl =>
      intro vg vd hl hm
      rw [hasCircList]
      split
      · simp
      · match hres : hasCircAux doc (fuel + 1) p target vg vd with
        | none =>
          exact absurd hres (aux1 p target vg vd (hl p (by simp)) hm)
        | some (true, a, b) => simp
        | some (false, a, b) =>
          obtain ⟨ha, _⟩ := (circ_false_state doc (fuel + 1)).1 _ _ _ _ _ _ hres
          rw [ha]
          have hrec := ihl vg b (fun y hy => hl y (by simp [hy])) hm
          simpa using hrec

theorem circInv_mono_vg (doc : Document) (target s : Str) (vg vd : List Str)
    (h : circInv doc target vg vd) : circInv doc target (s :: vg) vd := by
  intro y hy hyvd z hz
  obtain ⟨h1, h2⟩ := h y hy hyvd z hz
  exact ⟨h1, h2.elim (fun hh => Or.inl (List.mem_cons_of_mem _ hh)) Or.inr⟩

theorem circ_false_inv (doc : Document)
    (hne : ∀ i ∈ doc.individuals, i.xref ≠ [])
    (hnd : (doc.individuals.map Individual.xref).Nodup) :
    ∀ fuel : Nat,
      (∀ (x : Individual) (target : Str) (vg vd vg' vd' : List Str),
        x ∈ doc.individuals →
        hasCircAux doc fuel x target vg vd = some (false, vg', vd') →
        circInv doc target vg vd →
        circInv doc target vg vd' ∧ (∀ s ∈ vd, s ∈ vd') ∧ (x.xref ∈ vg ∨ x.xref ∈ vd')) ∧
      (∀ (l : List Individual) (target : Str) (vg vd vg' vd' : List Str),
        (∀ y ∈ l, y ∈ doc.individuals) →
        hasCircList doc fuel l target vg vd = some (false, vg', vd') →
        circInv doc target vg vd →
        circInv doc target vg vd' ∧ (∀ s ∈ vd, s ∈ vd') ∧
        (∀ y ∈ l, y.xref ≠ target ∧ (y.xref ∈ vg ∨ y.xref ∈ vd'))) := by
  intro fuel
  induction fuel with
  | zero =>
    constructor
    · intro x target vg vd vg' vd' _ h _
      simp [hasCircAux] at h
    · intro l target vg vd vg' vd' _ h hinv
      match l with
      | [] =>
        simp [hasCircList] at h
        refine ⟨h.2 ▸ hinv, fun s hs => h.2 ▸ hs, by simp⟩
      | p :: rest =>
        rw [hasCircList] at h
        split at h
        · simp at h
        · simp [hasCircAux] at h
  | succ fuel ih =>
    have aux1 : ∀ (x : Individual) (target : Str) (vg vd vg' vd' : List Str),
        x ∈ doc.individuals →
        hasCircAux doc (fuel + 1) x target vg vd = some (false, vg', vd') →
        circInv doc target vg vd →
        circInv doc target vg vd' ∧ (∀ s ∈ vd, s ∈ vd') ∧ (x.xref ∈ vg ∨ x.xref ∈ vd') := by
      intro x target vg vd vg' vd' hxm h hinv
      rw [hasCircAux] at h
      split at h
      · rename_i hxe
        exact absurd hxe (hne x hxm)
      · split at h
        · rename_i hvis
          simp at h
          refine ⟨h.2.2 ▸ hinv, fun s hs => h.2.2 ▸ hs, Or.inl ?_⟩
          simpa using hvis
        · split at h
          · rename_i hvis hvid
            simp at h
            refine ⟨h.2 ▸ hinv, fun s hs => h.2 ▸ hs, Or.inr ?_⟩
            rw [← h.2]
            simpa using hvid
          · split at h
            · simp at h
            · simp at h
            · rename_i a b hres
              simp only [Option.some.injEq, Prod.mk.injEq] at h
              obtain ⟨-, hvd'⟩ := h.2
              obtain ⟨hinvb, hsub, hpar⟩ := ih.2 (parents doc x) target (x.xref :: vg) vd a b
                (fun y hy => parents_mem doc x y hy) hres (circInv_mono_vg doc target _ _ _ hinv)
              subst hvd'
              refine ⟨?_, ?_, Or.inr (by simp)⟩
              · intro y hy hyvd z hz
                rcases List.mem_cons.mp hyvd with hyx | hyb
                · have hyeq : y = x := xref_inj doc hnd y x hy hxm hyx
                  subst hyeq
                  obtain ⟨hz1, hz2⟩ := hpar z hz
                  refine ⟨hz1, ?_⟩
                  rcases hz2 with hz2 | hz2
                  · rcases List.mem_cons.mp hz2 with hzx | hzvg
                    · exact Or.inr (by simp [hzx])
                    · exact Or.inl hzvg
                  · exact Or.inr (List.mem_cons_of_mem _ hz2)
                · obtain ⟨hz1, hz2⟩ := hinvb y hy hyb z hz
                  refine ⟨hz1, ?_⟩
                  rcases hz2 with hz2 | hz2
                  · rcases List.mem_cons.mp hz2 with hzx | hzvg
                    · exact Or.inr (by simp [hzx])
                    · exact Or.inl hzvg
                  · exact Or.inr (List.mem_cons_of_mem _ hz2)
              · intro s hs
                exact List.mem_cons_of_mem _ (hsub s hs)
    refine ⟨aux1, ?_⟩
    intro l target
    induction l with
    | nil =>
      intro vg vd vg' vd' _ h hinv
      simp [hasCircList] at h
      exact ⟨h.2 ▸ hinv, fun s hs => h.2 ▸ hs, by simp⟩
    | cons p rest ihl =>
      intro vg vd vg' vd' hl h hinv
      rw [hasCircList] at h
      split at h
      · simp at h
      · rename_i hpt
        match hres : hasCircAux doc (fuel + 1) p target vg vd with
        | none => rw [hres] at h; simp at h
        | some (true, a, b) => rw [hres] at h; simp at h
        | some (false, a, b) =>
          rw [hres] at h
          simp only at h
          obtain ⟨hav, -⟩ := (circ_false_state doc (fuel + 1)).1 _ _ _ _ _ _ hres
          rw [hav] at hres h
          obtain ⟨hinvb, hsubb, hpmem⟩ := aux1 p target vg vd vg b (hl p (by simp)) hres hinv
          obtain ⟨hinv', hsub', hrest⟩ := ihl vg b vg' vd' (fun y hy => hl y (by simp [hy])) h hinvb
          refine ⟨hinv', fun s hs => hsub' s (hsubb s hs), ?_⟩
          intro y hy
          rcases List.mem_cons.mp hy with hyp | hyr
          · subst hyp
            refine ⟨by simpa using hpt, ?_⟩
            rcases hpmem with hh | hh
            · exact Or.inl hh
            · exact Or.inr (hsub' _ hh)
          · exact hrest y hyr

theorem circ_true_sound (doc : Document)
    (hnd : (doc.individuals.map Individual.xref).Nodup)
    (ind : Individual) (hindm : ind ∈ doc.individuals) :
    ∀ fuel : Nat,
      (∀ (x : Individual) (vg vd a b : List Str),
        x ∈ doc.individuals →
        Relation.TransGen (parentStep doc) ind x →
        hasCircAux doc fuel x ind.xref vg vd = some (true, a, b) →
        Relation.TransGen (parentStep doc) ind ind) ∧
      (∀ (l : List Individual) (vg vd a b : List Str),
        (∀ y ∈ l, y ∈ doc.individuals ∧ Relation.TransGen (parentStep doc) ind y) →
        hasCircList doc fuel l ind.xref vg vd = some (true, a, b) →
        Relation.TransGen (parentStep doc) ind ind) := by
  intro fuel
  induction fuel with
  | zero =>
    constructor
    · intro x vg vd a b _ _ h
      simp [hasCircAux] at h
    · intro l vg vd a b hl h
      match l with
      | [] => simp [hasCircList] at h
      | p :: rest =>
        rw [hasCircList] at h
        split at h
        · rename_i hpt
          have hpeq : p = ind := xref_inj doc hnd p ind (hl p (by simp)).1 hindm (by simpa using hpt)
          exact hpeq ▸ (hl p (by simp)).2
        · simp [hasCircAux] at h
  | succ fuel ih =>
    have aux1 : ∀ (x : Individual) (vg vd a b : List Str),
        x ∈ doc.individuals →
        Relation.TransGen (parentStep doc) ind x →
        hasCircAux doc (fuel + 1) x ind.xref vg vd = some (true, a, b) →
        Relation.TransGen (parentStep doc) ind ind := by
      intro x vg vd a b hxm hreach h
      rw [hasCircAux] at h
      split at h
      · simp at h
      · split at h
        · simp at h
          have hxeq : x = ind := xref_inj doc hnd x ind hxm hindm h.1
          exact hxeq ▸ hreach
        · split at h
          · simp at h
          · split at h
            · simp at h
            · rename_i a2 b2 hres
              exact ih.2 (parents doc x) (x.xref :: vg) vd a2 b2
                (fun y hy => ⟨parents_mem doc x y hy, hreach.tail hy⟩) hres
            · simp at h
    refine ⟨aux1, ?_⟩
    intro l
    induction l with
    | nil => intro vg vd a b _ h; simp [hasCircList] at h
    | cons p rest ihl =>
      intro vg vd a b hl h
      rw [hasCircList] at h
      split at h
      · rename_i hpt
        have hpeq : p = ind := xref_inj doc hnd p ind (hl p (by simp)).1 hindm (by simpa using hpt)
        exact hpeq ▸ (hl p (by simp)).2
      · match hres : hasCircAux doc (fuel + 1) p ind.xref vg vd with
        | none => rw [hres] at h; simp at h
        | some (true, a2, b2) =>
          exact aux1 p vg vd a2 b2 (hl p (by simp)).1 (hl p (by simp)).2 hres
        | some (false, a2, b2) =>
          rw [hres] at h
          simp only at h
          exact ihl a2 b2 a b (fun y hy => hl y (by simp [hy])) h

theorem circ_no_cycle (doc : Document)
    (hne : ∀ i ∈ doc.individuals, i.xref ≠ [])
    (hnd : (doc.individuals.map Individual.xref).Nodup)
    (ind : Individual) (hindm : ind ∈ doc.individuals) (vg' vd' : List Str)
    (h : hasCircAux doc (circFuel doc) ind ind.xref [] [] = some (false, vg', vd')) :
    ¬ Relation.TransGen (parentStep doc) ind ind := by
  have hinv0 : circInv doc ind.xref [] [] := by
    intro y hy hyvd
    simp at hyvd
  obtain ⟨hinv, -, hxm⟩ :=
    (circ_false_inv doc hne hnd (circFuel doc)).1 ind ind.xref [] [] vg' vd' hindm h hinv0
  have hindvd : ind.xref ∈ vd' := hxm.resolve_left (by simp)
  intro hcyc
  have hreach : ∀ a c : Individual, Relation.TransGen (parentStep doc) a c →
      a ∈ doc.individuals → a.xref ∈ vd' →
      c ∈ doc.individuals ∧ c.xref ∈ vd' ∧ c.xref ≠ ind.xref := by
    intro a c hac
    induction hac with
    | single hstep =>
      intro ham havd
      obtain ⟨hz1, hz2⟩ := hinv a ham havd _ hstep
      exact ⟨parents_mem doc a _ hstep, hz2.resolve_left (by simp), hz1⟩
    | tail hab hbc ihab =>
      intro ham havd
      obtain ⟨hbm, hbvd, -⟩ := ihab ham havd
      obtain ⟨hz1, hz2⟩ := hinv _ hbm hbvd _ hbc
      exact ⟨parents_mem doc _ _ hbc, hz2.resolve_left (by simp), hz1⟩
  obtain ⟨-, -, hne'⟩ := hreach ind ind hcyc hindm hindvd
  exact hne' rfl

theorem hasCircularAncestry_iff (doc : Document)
    (hne : ∀ i ∈ doc.individuals, i.xref ≠ [])
    (hnd : (doc.individuals.map Individual.xref).Nodup)
    (ind : Individual) (hindm : ind ∈ doc.individuals) :
    hasCircularAncestry doc ind = true ↔ hasAncestryCycle doc ind := by
  have hfuel : circMeasure doc [] < circFuel doc := by
    have : circMeasure doc [] ≤ (doc.individuals.map Individual.xref).length :=
      List.length_filter_le _ _
    have hlen : (doc.individuals.map Individual.xref).length = doc.individuals.length :=
      List.length_map _ _
    unfold circFuel
    omega
  have hxs : ind.xref ∈ doc.individuals.map Individual.xref := List.mem_map_of_mem _ hindm
  constructor
  · intro h
    unfold hasCircularAncestry at h
    match hres : hasCircAux doc (circFuel doc) ind ind.xref [] [] with
    | none => rw [hres] at h; simp at h
    | some (false, a, b) => rw [hres] at h; simp at h
    | some (true, a, b) =>
      have hF : circFuel doc = (doc.individuals.length + 1) + 1 := rfl
      rw [hF, hasCircAux] at hres
      rw [if_neg (hne ind hindm)] at hres
      rw [if_neg (by simp)] at hres
      rw [if_neg (by simp)] at hres
      unfold hasAncestryCycle
      match hres2 : hasCircList doc (doc.individuals.length + 1) (parents doc ind) ind.xref
          [ind.xref] [] with
      | none => rw [hres2] at hres; simp at hres
      | some (false, a2, b2) => rw [hres2] at hres; simp at hres
      | some (true, a2, b2) =>
        exact (circ_true_sound doc hnd ind hindm (doc.individuals.length + 1)).2
          (parents doc ind) [ind.xref] [] a2 b2
          (fun y hy => ⟨parents_mem doc ind y hy, Relation.TransGen.single hy⟩) hres2
  · intro hcyc
    unfold hasCircularAncestry
    match hres : hasCircAux doc (circFuel doc) ind ind.xref [] [] with
    | none =>
      exact absurd hres ((circ_fuel doc (circFuel doc)).1 ind ind.xref [] [] hxs hfuel)
    | some (true, a, b) => rfl
    | some (false, a, b) =>
      exact absurd hcyc (circ_no_cycle doc hne hnd ind hindm a b hres)

theorem filterMap_xref_count (f : Individual → Option ValidationError)
    (hf : ∀ i e, f i = some e → e.xref = i.xref) :
    ∀ (l : List Individual), (l.map Individual.xref).Nodup → ∀ X : Str,
      ((l.filterMap f).filter (fun e => e.xref = X)).length ≤ 1 := by
  intro l
  induction l with
  | nil => intro _ X; simp
  | cons i l ih =>
    intro hnd X
    rw [List.map_cons, List.nodup_cons] at hnd
    rw [List.filterMap_cons]
    cases hfi : f i with
    | none => exact ih hnd.2 X
    | some e =>
      rw [List.filter_cons]
      by_cases hex : e.xref = X
      · rw [if_pos (by simp [hex])]
        simp only [List.length_cons]
        have hzero : ((l.filterMap f).filter (fun e2 => e2.xref = X)).length = 0 := by
          rw [List.length_eq_zero, List.filter_eq_nil_iff]
          intro e2 he2
          rw [List.mem_filterMap] at he2
          obtain ⟨i2, hi2, hfe2⟩ := he2
          simp only [decide_eq_true_eq]
          intro hcon
          apply hnd.1
          have hix : i.xref = X := by rw [← hf i e hfi, hex]
          have hi2x : i2.xref = X := by rw [← hf i2 e2 hfe2, hcon]
          rw [hix, ← hi2x]
          exact List.mem_map_of_mem _ hi2
        omega
      · rw [if_neg (by simp [hex])]
        exact ih hnd.2 X

/-- C5: under the documented invariants (individual xrefs nonempty and
unique), the validator emits a CIRCULAR_REFERENCE issue carrying an
individual's xref exactly when a nonempty chain of parent steps
(FAMC → HUSB/WIFE) leads from that individual back to itself; individuals
with no such cycle — including ones that merely share ancestors — get no
issue, at most one issue is emitted per individual, and every emitted issue
has code CIRCULAR_REFERENCE. -/
theorem claim_C5 (doc : Document)
    (hne : ∀ i ∈ doc.individuals, i.xref ≠ [])
    (hnd : (doc.individuals.map Individual.xref).Nodup) :
    ∀ ind ∈ doc.individuals,
      ((∃ e ∈ validateCircularRelationships doc, e.xref = ind.xref) ↔
        hasAncestryCycle doc ind) ∧
      ((validateCircularRelationships doc).filter (fun e => e.xref = ind.xref)).length ≤ 1 ∧
      (∀ e ∈ validateCircularRelationships doc, e.code = "CIRCULAR_REFERENCE") := by
  intro ind hindm
  refine ⟨⟨?_, ?_⟩, ?_, ?_⟩
  · rintro ⟨e, he, hex⟩
    rw [validateCircularRelationships, List.mem_filterMap] at he
    obtain ⟨i, him, hfi⟩ := he
    by_cases h1 : i.xref = []
    · rw [if_pos h1] at hfi
      simp at hfi
    · rw [if_neg h1] at hfi
      by_cases h2 : hasCircularAncestry doc i = true
      · rw [if_pos h2] at hfi
        have he' := (Option.some.inj hfi).symm
        have hexi : e.xref = i.xref := by rw [he']
        have hieq : i = ind := xref_inj doc hnd i ind him hindm (by rw [← hexi, hex])
        subst hieq
        exact (hasCircularAncestry_iff doc hne hnd i him).mp h2
      · rw [if_neg h2] at hfi
        simp at hfi
  · intro hcyc
    have h2 : hasCircularAncestry doc ind = true :=
      (hasCircularAncestry_iff doc hne hnd ind hindm).mpr hcyc
    refine ⟨{ code := "CIRCULAR_REFERENCE",
              message := "Circular family relationship detected for " ++ strOf ind.xref,
              line := 0, xref := ind.xref }, ?_, rfl⟩
    rw [validateCircularRelationships, List.mem_filterMap]
    exact ⟨ind, hindm, by rw [if_neg (hne ind hindm), if_pos h2]⟩
  · apply filterMap_xref_count _ ?_ doc.individuals hnd ind.xref
    intro i e hfe
    by_cases h1 : i.xref = []
    · rw [if_pos h1] at hfe
      simp at hfe
    · rw [if_neg h1] at hfe
      by_cases h2 : hasCircularAncestry doc i = true
      · rw [if_pos h2] at hfe
        rw [← Option.some.inj hfe]
      · rw [if_neg h2] at hfe
        simp at hfe
  · intro e he
    rw [validateCircularRelationships, List.mem_filterMap] at he
    obtain ⟨i, him, hfi⟩ := he
    by_cases h1 : i.xref = []
    · rw [if_pos h1] at hfi
      simp at hfi
    · rw [if_neg h1] at hfi
      by_cases h2 : hasCircularAncestry doc i = true
      · rw [if_pos h2] at hfi
        rw [← Option.some.inj hfi]
      · rw [if_neg h2] at hfi
        simp at hfi

/-- Witness for C5: in the two-individual mutual-parent document the
validator flags `@I1@`. -/
theorem claim_C5_witness :
    (∃ e ∈ validateCircularRelationships
      { header := none, records := [], xrefKeys := [],
        individuals := [{ xref := "@I1@".toList, famc := ["@F2@".toList] },
                        { xref := "@I2@".toList, famc := ["@F1@".toList] }],
        families := [{ xref := "@F1@".toList, husband := "@I1@".toList, wife := [] },
                     { xref := "@F2@".toList, husband := "@I2@".toList, wife := [] }] },
      e.xref = "@I1@".toList) :=
  (claim_C5
    { header := none, records := [], xrefKeys := [],
      individuals := [{ xref := "@I1@".toList, famc := ["@F2@".toList] },
                      { xref := "@I2@".toList, famc := ["@F1@".toList] }],
      families := [{ xref := "@F1@".toList, husband := "@I1@".toList, wife := [] },
                   { xref := "@F2@".toList, husband := "@I2@".toList, wife := [] }] }
    (by decide) (by decide)
    { xref := "@I1@".toList, famc := ["@F2@".toList] } (by decide)).1.mpr
    (Relation.TransGen.tail
      (Relation.TransGen.single
        (show parentStep
          { header := none, records := [], xrefKeys := [],
            individuals := [{ xref := "@I1@".toList, famc := ["@F2@".toList] },
                            { xref := "@I2@".toList, famc := ["@F1@".toList] }],
            families := [{ xref := "@F1@".toList, husband := "@I1@".toList, wife := [] },
                         { xref := "@F2@".toList, husband := "@I2@".toList, wife := [] }] }
          { xref := "@I1@".toList, famc := ["@F2@".toList] }
          { xref := "@I2@".toList, famc := ["@F1@".toList] } by unfold parentStep; decide))
      (show parentStep
        { header := none, records := [], xrefKeys := [],
          individuals := [{ xref := "@I1@".toList, famc := ["@F2@".toList] },
                          { xref := "@I2@".toList, famc := ["@F1@".toList] }],
          families := [{ xref := "@F1@".toList, husband := "@I1@".toList, wife := [] },
                       { xref := "@F2@".toList, husband := "@I2@".toList, wife := [] }] }
        { xref := "@I2@".toList, famc := ["@F1@".toList] }
        { xref := "@I1@".toList, famc := ["@F2@".toList] } by unfold parentStep; decide))

end Gedcom
